import Mathlib

/-!
# Nox — verification of the download engine, progress store, pipeline and loop

Shallow embedding of the core of the Nox DICOM retrieval tool:

* `query.py` — WADO manifest parsing (`_parse_xml`, `obter_metadata`);
* `downloader.py` — the per-study download engine (`baixar_an`), the durable
  progress record (`_ler_json` / `_gravar_json` / `_iniciar_json`) and the
  per-image task (`_baixar_sop`);
* `pipeline.py` — the pipeline dispatcher (`enviar_para_pipeline_api`,
  `_select_pipeline_dcm`, `processar_exame`);
* `loop.py` — the orchestrator's `LoopController` and
  `verificar_retencao_exames`.

Network and DICOM-file I/O are abstracted into explicit environment values
(per-image outcomes, HTTP results, parsed DICOM attributes); file systems are
modelled as finite maps / finite sets of paths.  Floating point fields
(`velocidade`, the informational download rate) are omitted: they never feed a
control decision.
-/

/-! ## Storage mode (`config.STORAGE_MODE`) -/

inductive StorageMode where
  | persistent
  | transient
  | pipeline
deriving DecidableEq, Repr

/-! ## Loop controller (`loop.py`, class `LoopController`)

The controller's mutable state consists of the two `threading.Event`s and the
lock-protected success counter and limit.  `waitIfPaused` only blocks — it
mutates nothing.  `set_success_limit` and the constructor coerce a non-positive
or missing limit to "no limit" exactly as the Python truthiness test
`limit if limit and limit > 0 else None` does. -/

structure Controller where
  stopEvent : Bool
  pauseEvent : Bool
  successCount : Nat
  successLimit : Option Nat
deriving DecidableEq, Repr

namespace Controller

def normLimit (l : Option Int) : Option Nat :=
  match l with
  | some v => if 0 < v then some v.toNat else none
  | none => none

def init (successLimit : Option Int) : Controller :=
  { stopEvent := false
    pauseEvent := true
    successCount := 0
    successLimit := normLimit successLimit }

inductive Op where
  | stop
  | pause
  | resume
  | setSuccessLimit (l : Option Int)
  | registerSuccess
  | waitIfPaused
deriving DecidableEq, Repr

/-- One controller operation.  `register_success` increments the counter and,
when a (truthy) limit is reached, sets the stop and pause events. -/
def apply (c : Controller) : Op → Controller
  | .stop => { c with stopEvent := true, pauseEvent := true }
  | .pause => { c with pauseEvent := false }
  | .resume => { c with pauseEvent := true }
  | .setSuccessLimit l => { c with successLimit := normLimit l }
  | .registerSuccess =>
      let count := c.successCount + 1
      let reached :=
        match c.successLimit with
        | some lim => decide (lim ≠ 0) && decide (lim ≤ count)
        | none => false
      if reached then
        { c with successCount := count, stopEvent := true, pauseEvent := true }
      else
        { c with successCount := count }
  | .waitIfPaused => c

def shouldStop (c : Controller) : Bool := c.stopEvent

def runOps (c : Controller) (ops : List Op) : Controller :=
  ops.foldl apply c

lemma apply_stop_mono (c : Controller) (op : Op) (h : c.shouldStop = true) :
    (c.apply op).shouldStop = true := by
  cases op with
  | stop => rfl
  | pause => exact h
  | resume => exact h
  | setSuccessLimit l => exact h
  | registerSuccess =>
      simp only [apply, shouldStop] at h ⊢
      split <;> simp [h]
  | waitIfPaused => exact h

end Controller

/-! ## Atomic progress writes (`downloader.py`, `_gravar_json`)

`_gravar_json` serializes the reordered record to `"{an}.json.tmp"` (a sibling
of the target; `Path.with_suffix(".json.tmp")` on `"{an}.json"`) and then calls
`os.replace(tmp, final)`, which is atomic.  We model the file system as a map
from path to content and enumerate every state the write can be observed in —
including a crash while the temporary file is being filled (`tmpMid`, with
arbitrary bytes on the temporary path) and an error caught by the
`try/except` (any phase before `replaced`). -/

/-- File system: path to complete file content. -/
def FsMap : Type := String → Option String

def jsonPathOf (an : String) : String := an ++ ".json"

def tmpPathOf (an : String) : String := an ++ ".json.tmp"

/-- Observable phases of one `_gravar_json` call: before the temporary write,
mid-way through writing the temporary file (content `s` is whatever prefix the
crash left), after the temporary file is complete, and after `os.replace`. -/
inductive WritePhase where
  | start
  | tmpMid (s : String)
  | tmpDone
  | replaced
deriving DecidableEq

/-- The file-system state of `_gravar_json an content` observed at `phase`. -/
def gravarJsonAt (an content : String) (fs : FsMap) : WritePhase → FsMap
  | .start => fs
  | .tmpMid s => fun p => if p = tmpPathOf an then some s else fs p
  | .tmpDone => fun p => if p = tmpPathOf an then some content else fs p
  | .replaced => fun p =>
      if p = jsonPathOf an then some content
      else if p = tmpPathOf an then none
      else fs p

lemma jsonPath_ne_tmpPath (an : String) : jsonPathOf an ≠ tmpPathOf an := by
  intro h
  have hlen : (jsonPathOf an).length = (tmpPathOf an).length := by rw [h]
  simp only [jsonPathOf, tmpPathOf, String.length_append] at hlen
  have h5 : (".json" : String).length = 5 := rfl
  have h9 : (".json.tmp" : String).length = 9 := rfl
  omega

/-! ## The progress record (`ProgressRecord` / the per-study JSON)

Fields of the JSON written by `downloader.py`.  `historico` is a Python `set`
in memory (persisted as a list whose order is a presentation concern), so it is
modelled as a `Finset String`.  The float field `velocidade` is omitted
(informational only). -/

structure ProgressJson where
  an : String
  servidor : String
  study_uid : String
  total : Nat
  baixadas : Nat
  status : String
  historico : Finset String
  patient_name : String
  study_desc : String
  modality : String
deriving DecidableEq

/-- Patient/study summary fields extracted from the first DICOM image
(`pydicom.dcmread` in `_baixar_sop`). -/
structure PatientMeta where
  patient_name : String
  study_desc : String
  modality : String
deriving DecidableEq, Repr

/-- `js.update(metadata_extracted)` on the three summary fields. -/
def applyMeta (js : ProgressJson) (pm : PatientMeta) : ProgressJson :=
  { js with
    patient_name := pm.patient_name
    study_desc := pm.study_desc
    modality := pm.modality }

/-! ## Manifest resolution (`query.py`, `_parse_xml` / `obter_metadata`)

`_parse_xml` walks the WADO XML: it requires a `Study` element with a
`StudyInstanceUID`, collects each `Series` that has a `SeriesInstanceUID`
(keeping only non-empty `SOPInstanceUID`s), sums the instance counts and
raises `RuntimeError("Nenhuma imagem encontrada no XML.")` when the sum is
zero.  The byte-level download and UTF-16 transcoding are abstracted: the
input here is the already-parsed element structure (`Option XmlStudy`, `none`
when no `Study` element is present). -/

structure SeriesMeta where
  series_uid : String
  instances : List String
deriving DecidableEq, Repr

structure Meta where
  an : String
  study_uid : String
  series : List SeriesMeta
  total_instances : Nat
deriving DecidableEq, Repr

/-- All SOP instance UIDs of the manifest, in series order. -/
def allSops (m : Meta) : List String := m.series.flatMap (·.instances)

/-- The manifest's image-identifier set, `union(manifest.seriesList[*].imageIds)`. -/
def manifestImages (m : Meta) : Finset String := (allSops m).toFinset

structure XmlSeries where
  uid : String
  insts : List String
deriving DecidableEq, Repr

structure XmlStudy where
  uid : String
  series : List XmlSeries
deriving DecidableEq, Repr

/-- The series kept by `_parse_xml`: skip a series with an empty
`SeriesInstanceUID`, keep only non-empty SOP UIDs. -/
def parseSeries (xs : List XmlSeries) : List SeriesMeta :=
  (xs.filter (fun s => s.uid ≠ "")).map (fun s => ⟨s.uid, s.insts.filter (· ≠ "")⟩)

/-- Image count reported by a parsed-but-possibly-empty manifest. -/
def xmlImageCount (x : XmlStudy) : Nat :=
  ((parseSeries x.series).map (·.instances.length)).sum

/-- `_parse_xml`.  `Except.error` corresponds to a raised `RuntimeError`. -/
def parseXml (an : String) (st : Option XmlStudy) : Except String Meta :=
  match st with
  | none => .error "Study não encontrado no XML."
  | some x =>
      if x.uid = "" then .error "StudyInstanceUID ausente no XML."
      else
        let series := parseSeries x.series
        let total := (series.map (·.instances.length)).sum
        if total = 0 then .error "Nenhuma imagem encontrada no XML."
        else .ok ⟨an, x.uid, series, total⟩

/-! ## The per-image task (`downloader.py`, `_baixar_sop`)

`_baixar_sop` downloads one image (2 attempts), optionally extracts patient
metadata from it, and applies the storage-mode placement: in `transient` mode
the file is moved to the viewer inbox (`final_ok = False` when the inbox is
missing or the move fails); in `persistent`/`pipeline` modes the file stays
(the optional viewer copy fails silently).  The network and parse outcomes are
the task's environment. -/

structure SopEnv where
  /-- Both download attempts, end to end: file exists with non-zero size. -/
  downloadOk : Bool
  /-- Result of `pydicom.dcmread` on the downloaded file (`none` = parse failed). -/
  parsed : Option PatientMeta
  /-- `transient` placement: inbox configured, exists, and the move succeeded. -/
  placedOk : Bool

/-- `_baixar_sop` result `(sucesso, metadata)`. -/
def baixarSop (mode : StorageMode) (extract : Bool) (e : SopEnv) :
    Bool × Option PatientMeta :=
  if e.downloadOk then
    let m := if extract then e.parsed else none
    match mode with
    | .transient => (e.placedOk, m)
    | _ => (true, m)
  else (false, none)

/-! ## The download engine (`downloader.py`, `baixar_an`) -/

/-- `_iniciar_json`: the fresh progress record (`status "ativo"`). -/
def iniciarJson (an servidor : String) (meta : Meta) : ProgressJson :=
  { an := an
    servidor := servidor
    study_uid := meta.study_uid
    total := meta.total_instances
    baixadas := 0
    status := "ativo"
    historico := ∅
    patient_name := "—"
    study_desc := ""
    modality := "" }

/-- The record `baixar_an` works with after step 2: a fresh `_iniciar_json`
record, or the re-read record with `js["total"] = total`. -/
def loadedJs (an servidor : String) (meta : Meta) (js0 : Option ProgressJson) :
    ProgressJson :=
  match js0 with
  | none => iniciarJson an servidor meta
  | some j => { j with total := meta.total_instances }

/-- Reconcile `historico` against reality: `transient` trusts the record;
`persistent`/`pipeline` keep only SOPs whose file exists on disk with non-zero
size (`disk` is that set of SOPs). -/
def validarHistorico (mode : StorageMode) (hist disk : Finset String) :
    Finset String :=
  if mode = .transient then hist else hist.filter (· ∈ disk)

/-- The missing-SOP work list, in series order (`faltantes_list`). -/
def faltantesList (series : List SeriesMeta) (historico : Finset String) :
    List String :=
  series.flatMap (fun s => s.instances.filter (fun sop => sop ∉ historico))

/-- State threaded through the result-consumption loop of `baixar_an`. -/
structure LoopState where
  historico : Finset String
  novos : Nat
  js : ProgressJson
  /-- Every `_gravar_json` performed by the loop, in order. -/
  writes : List ProgressJson
  /-- SOPs whose file exists on disk with non-zero size. -/
  disk : Finset String
  /-- SOPs whose task was submitted with `extract_metadata=True`. -/
  extractedReq : List String
deriving DecidableEq

/-- One iteration of the result-consumption loop: consume `_baixar_sop`'s
result for `sop`, update `historico`/`novos`/patient metadata, rebuild the
record and persist it. -/
def loopStep (mode : StorageMode) (total : Nat) (extract : Bool)
    (sop : String) (e : SopEnv) (st : LoopState) : LoopState :=
  let r := baixarSop mode extract e
  let historico := if r.1 then insert sop st.historico else st.historico
  let novos := if r.1 then st.novos + 1 else st.novos
  let js1 :=
    match r.2 with
    | some pm => if r.1 then applyMeta st.js pm else st.js
    | none => st.js
  let js2 :=
    { js1 with
      baixadas := historico.card
      total := total
      status := "baixando"
      historico := historico }
  { historico := historico
    novos := novos
    js := js2
    writes := st.writes ++ [js2]
    disk :=
      if e.downloadOk ∧ mode ≠ .transient then insert sop st.disk
      else st.disk.erase sop
    extractedReq := if extract then st.extractedReq ++ [sop] else st.extractedReq }

/-- The consumption loop.  `extract_metadata` is requested only for the task at
index 0 and only when the summary fields were unset (`precisa0`); `first`
tracks "index = 0". -/
def runLoop (mode : StorageMode) (total : Nat) (precisa0 : Bool) :
    Bool → List (String × SopEnv) → LoopState → LoopState
  | _, [], st => st
  | first, (sop, e) :: rest, st =>
      runLoop mode total precisa0 false rest
        (loopStep mode total (precisa0 && first) sop e st)

/-- Result of one `baixar_an` invocation. -/
structure RunResult where
  ok : Bool
  /-- Every `_gravar_json` of the invocation, in order. -/
  writes : List ProgressJson
  /-- The writes of the download loop plus the final `"completo"` write
  (`downloader.py` lines 699–714 and 741–751). -/
  loopWrites : List ProgressJson
  /-- SOPs dispatched for download in this invocation. -/
  fetched : List String
  /-- The progress record on disk after the invocation. -/
  record : Option ProgressJson
  /-- SOPs present on disk (non-zero size) after the invocation. -/
  disk : Finset String
  /-- SOPs whose task carried `extract_metadata=True`. -/
  extractedReq : List String

/-- `baixar_an` (download engine, `downloader.py` lines 547–832).

Parameters are the invocation's environment:
* `metaE` — result of `obter_metadata` (`Except.error` = a raised exception,
  connection failure included);
* `js0` — `_ler_json an` (`none` for a missing or corrupt record);
* `disk0` — SOPs whose `{sop}.dcm` exists under the study directory with
  non-zero size before the run;
* `envOf` — per-image outcome of `_baixar_sop` for each SOP;
* `pipelineOk`, `pipelineHasResp`, `laudoOk` — outcomes of the
  pipeline-dispatch and report-writing calls performed in `pipeline` mode
  after completion (modelled in detail separately by
  `enviarParaPipelineApi`).

The returned `RunResult` records the boolean outcome, every persisted write,
the dispatched SOPs and the final on-disk state. -/
def baixarAn (mode : StorageMode) (an servidor : String)
    (metaE : Except String Meta) (js0 : Option ProgressJson)
    (disk0 : Finset String) (envOf : String → SopEnv)
    (pipelineOk pipelineHasResp laudoOk : Bool) : RunResult :=
  match metaE with
  | .error _ => ⟨false, [], [], [], js0, disk0, []⟩
  | .ok meta =>
      let total := meta.total_instances
      if total = 0 then ⟨false, [], [], [], js0, disk0, []⟩
      else
        let js := loadedJs an servidor meta js0
        let preWrites := [js]
        let hist := validarHistorico mode js.historico disk0
        let baixadas := hist.card
        let faltantes : Int := (total : Int) - (baixadas : Int)
        if faltantes = 0 then
          -- "já estava completo": persist `status="completo"`, `baixadas=total`
          -- (`js["historico"]` is left as read) and return success.
          let jsC := { js with status := "completo", baixadas := total }
          ⟨true, preWrites ++ [jsC], [], [], some jsC, disk0, []⟩
        else
          let fl := faltantesList meta.series hist
          let precisa0 := js.patient_name == "—"
          let st0 : LoopState := ⟨hist, 0, js, [], disk0, []⟩
          let stF := runLoop mode total precisa0 true
            (fl.map (fun s => (s, envOf s))) st0
          let completas := stF.historico.card
          if total ≤ completas then
            let jsF :=
              { stF.js with
                baixadas := completas
                status := "completo"
                historico := stF.historico }
            let writes1 := preWrites ++ stF.writes ++ [jsF]
            let lw := stF.writes ++ [jsF]
            if mode = .pipeline then
              if !pipelineOk then
                let jsE := { jsF with status := "pipeline_erro" }
                ⟨false, writes1 ++ [jsE], lw, fl, some jsE, stF.disk,
                  stF.extractedReq⟩
              else if pipelineHasResp && !laudoOk then
                let jsE := { jsF with status := "pipeline_laudo_erro" }
                ⟨false, writes1 ++ [jsE], lw, fl, some jsE, stF.disk,
                  stF.extractedReq⟩
              else
                ⟨true, writes1, lw, fl, some jsF, stF.disk, stF.extractedReq⟩
            else
              ⟨true, writes1, lw, fl, some jsF, stF.disk, stF.extractedReq⟩
          else
            -- incomplete: no further persist; the last loop write (or, if the
            -- loop never wrote, the pre-loop write) is what remains on disk.
            ⟨false, preWrites ++ stF.writes, stF.writes, fl,
              (stF.writes.getLast?).getD js |> some, stF.disk,
              stF.extractedReq⟩

/-! ### Structural lemmas about the consumption loop -/

lemma loopStep_historico (mode : StorageMode) (total : Nat) (extract : Bool)
    (sop : String) (e : SopEnv) (st : LoopState) :
    (loopStep mode total extract sop e st).historico =
      if (baixarSop mode extract e).1 then insert sop st.historico
      else st.historico := rfl

lemma loopStep_js_baixadas (mode : StorageMode) (total : Nat) (extract : Bool)
    (sop : String) (e : SopEnv) (st : LoopState) :
    (loopStep mode total extract sop e st).js.baixadas =
      (loopStep mode total extract sop e st).historico.card := rfl

lemma loopStep_js_historico (mode : StorageMode) (total : Nat) (extract : Bool)
    (sop : String) (e : SopEnv) (st : LoopState) :
    (loopStep mode total extract sop e st).js.historico =
      (loopStep mode total extract sop e st).historico := rfl

lemma loopStep_writes (mode : StorageMode) (total : Nat) (extract : Bool)
    (sop : String) (e : SopEnv) (st : LoopState) :
    (loopStep mode total extract sop e st).writes =
      st.writes ++ [(loopStep mode total extract sop e st).js] := rfl

lemma baixarSop_extract_false (mode : StorageMode) (e : SopEnv) :
    (baixarSop mode false e).2 = none := by
  cases h : e.downloadOk <;> cases mode <;> simp [baixarSop, h]

lemma loopStep_js_fields_of_extract_false (mode : StorageMode) (total : Nat)
    (sop : String) (e : SopEnv) (st : LoopState) :
    (loopStep mode total false sop e st).js.patient_name = st.js.patient_name ∧
    (loopStep mode total false sop e st).js.study_desc = st.js.study_desc ∧
    (loopStep mode total false sop e st).js.modality = st.js.modality := by
  simp [loopStep, baixarSop_extract_false mode e]

lemma loopStep_extractedReq (mode : StorageMode) (total : Nat) (extract : Bool)
    (sop : String) (e : SopEnv) (st : LoopState) :
    (loopStep mode total extract sop e st).extractedReq =
      if extract then st.extractedReq ++ [sop] else st.extractedReq := rfl

/-- The partial-failure accounting invariant of the loop: every persisted loop
write has `baixadas = |historico|`, and `historico` stays inside `images`
whenever the initial set and all dispatched SOPs are inside `images`. -/
lemma runLoop_writes_inv (mode : StorageMode) (total : Nat) (precisa0 : Bool)
    (images : Finset String) :
    ∀ (first : Bool) (l : List (String × SopEnv)) (st : LoopState),
      (∀ p ∈ l, p.1 ∈ images) →
      st.historico ⊆ images →
      (∀ w ∈ st.writes, w.baixadas = w.historico.card ∧ w.historico ⊆ images) →
      (runLoop mode total precisa0 first l st).historico ⊆ images ∧
      ∀ w ∈ (runLoop mode total precisa0 first l st).writes,
        w.baixadas = w.historico.card ∧ w.historico ⊆ images := by
  intro first l
  induction l generalizing first with
  | nil => exact fun st _ h2 h3 => ⟨h2, h3⟩
  | cons p rest ih =>
      intro st h1 h2 h3
      obtain ⟨sop, e⟩ := p
      simp only [runLoop]
      have hsop : sop ∈ images := h1 (sop, e) (List.mem_cons_self _ _)
      have hhist :
          (loopStep mode total (precisa0 && first) sop e st).historico ⊆ images := by
        rw [loopStep_historico]
        split
        · exact Finset.insert_subset hsop h2
        · exact h2
      refine ih false _ (fun q hq => h1 q (List.mem_cons_of_mem _ hq)) hhist ?_
      intro w hw
      rw [loopStep_writes] at hw
      rcases List.mem_append.mp hw with hw | hw
      · exact h3 w hw
      · have hw' : w = (loopStep mode total (precisa0 && first) sop e st).js :=
          List.mem_singleton.mp hw
        subst hw'
        rw [loopStep_js_baixadas, loopStep_js_historico]
        exact ⟨rfl, hhist⟩

/-- With `first = false` the remaining loop iterations never request metadata
extraction, so the three summary fields persist unchanged. -/
lemma runLoop_js_fields (mode : StorageMode) (total : Nat) (precisa0 : Bool) :
    ∀ (l : List (String × SopEnv)) (st : LoopState),
      (runLoop mode total precisa0 false l st).js.patient_name =
        st.js.patient_name ∧
      (runLoop mode total precisa0 false l st).js.study_desc =
        st.js.study_desc ∧
      (runLoop mode total precisa0 false l st).js.modality = st.js.modality := by
  intro l
  induction l with
  | nil => exact fun st => ⟨rfl, rfl, rfl⟩
  | cons p rest ih =>
      intro st
      obtain ⟨sop, e⟩ := p
      simp only [runLoop, Bool.and_false]
      obtain ⟨h1, h2, h3⟩ := ih (loopStep mode total false sop e st)
      obtain ⟨g1, g2, g3⟩ := loopStep_js_fields_of_extract_false mode total sop e st
      exact ⟨h1.trans g1, h2.trans g2, h3.trans g3⟩

/-- With `first = false` the remaining loop iterations never add to the set of
extraction-flagged tasks. -/
lemma runLoop_extractedReq (mode : StorageMode) (total : Nat) (precisa0 : Bool) :
    ∀ (l : List (String × SopEnv)) (st : LoopState),
      (runLoop mode total precisa0 false l st).extractedReq = st.extractedReq := by
  intro l
  induction l with
  | nil => exact fun _ => rfl
  | cons p rest ih =>
      intro st
      obtain ⟨sop, e⟩ := p
      simp only [runLoop, Bool.and_false]
      rw [ih]
      rw [loopStep_extractedReq]
      simp

/-- The last persisted loop write is always the current in-memory record. -/
lemma runLoop_getLast (mode : StorageMode) (total : Nat) (precisa0 : Bool) :
    ∀ (first : Bool) (l : List (String × SopEnv)) (st : LoopState),
      st.writes.getLast? = some st.js →
      (runLoop mode total precisa0 first l st).writes.getLast? =
        some (runLoop mode total precisa0 first l st).js := by
  intro first l
  induction l generalizing first with
  | nil => exact fun st h => h
  | cons p rest ih =>
      intro st h
      obtain ⟨sop, e⟩ := p
      simp only [runLoop]
      refine ih false _ ?_
      rw [loopStep_writes, List.getLast?_concat]

lemma baixarSop_ok_of_downloadOk (mode : StorageMode) (extract : Bool)
    (e : SopEnv) (hd : e.downloadOk = true) (hm : mode ≠ .transient) :
    (baixarSop mode extract e).1 = true := by
  cases mode <;> simp_all [baixarSop]

/-- When every dispatched download succeeds (and the mode keeps files locally),
the loop delivers exactly the dispatched SOPs on top of the initial state. -/
lemma runLoop_all_ok (mode : StorageMode) (total : Nat) (precisa0 : Bool)
    (hm : mode ≠ .transient) :
    ∀ (first : Bool) (l : List (String × SopEnv)) (st : LoopState),
      (∀ p ∈ l, p.2.downloadOk = true) →
      (runLoop mode total precisa0 first l st).historico =
        st.historico ∪ (l.map Prod.fst).toFinset ∧
      (runLoop mode total precisa0 first l st).disk =
        st.disk ∪ (l.map Prod.fst).toFinset := by
  intro first l
  induction l generalizing first with
  | nil => intro st _; simp [runLoop]
  | cons p rest ih =>
      intro st h
      obtain ⟨sop, e⟩ := p
      have hd : e.downloadOk = true := h (sop, e) (List.mem_cons_self _ _)
      have hok := baixarSop_ok_of_downloadOk mode (precisa0 && first) e hd hm
      simp only [runLoop]
      obtain ⟨ih1, ih2⟩ := ih false (loopStep mode total (precisa0 && first) sop e st)
        (fun q hq => h q (List.mem_cons_of_mem _ hq))
      constructor
      · rw [ih1, loopStep_historico, if_pos hok]
        simp [Finset.insert_union, Finset.union_insert]
      · rw [ih2]
        have hdisk : (loopStep mode total (precisa0 && first) sop e st).disk =
            insert sop st.disk := by
          simp only [loopStep]
          rw [if_pos ⟨hd, hm⟩]
        rw [hdisk]
        simp [Finset.insert_union, Finset.union_insert]

/-! ### Small facts about reconciliation and the work list -/

lemma validarHistorico_subset (mode : StorageMode) (hist disk : Finset String) :
    validarHistorico mode hist disk ⊆ hist := by
  unfold validarHistorico
  split
  · exact fun _ h => h
  · exact Finset.filter_subset _ _

lemma validarHistorico_empty (mode : StorageMode) (disk : Finset String) :
    validarHistorico mode ∅ disk = ∅ := by
  unfold validarHistorico
  split <;> simp

lemma validarHistorico_of_ne_transient (mode : StorageMode)
    (hm : mode ≠ .transient) (hist disk : Finset String) :
    validarHistorico mode hist disk = hist.filter (· ∈ disk) := by
  unfold validarHistorico
  exact if_neg hm

lemma faltantesList_eq_filter (series : List SeriesMeta) (hist : Finset String) :
    faltantesList series hist =
      (series.flatMap (·.instances)).filter (fun sop => sop ∉ hist) := by
  induction series with
  | nil => rfl
  | cons s rest ih =>
      simp only [faltantesList, List.flatMap_cons, List.filter_append] at *
      rw [ih]

lemma faltantesList_subset (m : Meta) (hist : Finset String) :
    ∀ sop ∈ faltantesList m.series hist, sop ∈ manifestImages m := by
  intro sop h
  rw [faltantesList_eq_filter] at h
  have := List.mem_of_mem_filter h
  simpa [manifestImages, allSops] using this

lemma faltantesList_empty_hist (m : Meta) :
    faltantesList m.series (∅ : Finset String) = allSops m := by
  rw [faltantesList_eq_filter]
  simp [allSops]

/-! ## C1 — partial-failure accounting invariant -/

/-- C1.  In every `baixar_an` run, whatever the per-image outcomes, every
progress record persisted by the download loop (including the final
`"completo"` write) satisfies `baixadas = |historico|`, and its `historico`
stays inside the union of the manifest's per-series image identifiers,
provided the record loaded from disk already satisfied that subset relation
(trivially true for a fresh record, whose `historico` starts empty). -/
theorem nox_c1_accounting_invariant (mode : StorageMode) (an servidor : String)
    (m : Meta) (js0 : Option ProgressJson) (disk0 : Finset String)
    (envOf : String → SopEnv) (p1 p2 p3 : Bool)
    (hsub : ∀ j, js0 = some j → j.historico ⊆ manifestImages m) :
    ∀ w ∈ (baixarAn mode an servidor (.ok m) js0 disk0 envOf p1 p2 p3).loopWrites,
      w.baixadas = w.historico.card ∧ w.historico ⊆ manifestImages m := by
  intro w hw
  have hjs : (loadedJs an servidor m js0).historico ⊆ manifestImages m := by
    cases js0 with
    | none => simp [loadedJs, iniciarJson]
    | some j => simpa [loadedJs] using hsub j rfl
  have hhist :
      validarHistorico mode (loadedJs an servidor m js0).historico disk0 ⊆
        manifestImages m :=
    (validarHistorico_subset mode _ disk0).trans hjs
  have hmap :
      ∀ p ∈ (faltantesList m.series
          (validarHistorico mode (loadedJs an servidor m js0).historico disk0)).map
          (fun s => (s, envOf s)), p.1 ∈ manifestImages m := by
    intro p hp
    obtain ⟨s, hs, rfl⟩ := List.mem_map.mp hp
    exact faltantesList_subset m _ s hs
  have hinv := runLoop_writes_inv mode m.total_instances
      ((loadedJs an servidor m js0).patient_name == "—") (manifestImages m) true
      ((faltantesList m.series
          (validarHistorico mode (loadedJs an servidor m js0).historico disk0)).map
          (fun s => (s, envOf s)))
      ⟨validarHistorico mode (loadedJs an servidor m js0).historico disk0, 0,
        loadedJs an servidor m js0, [], disk0, []⟩
      hmap hhist (by intro x hx; simp at hx)
  simp only [baixarAn] at hw
  split at hw
  · simp at hw
  · split at hw
    · simp at hw
    · split at hw
      · -- complete branch
        split at hw
        · split at hw
          · rcases List.mem_append.mp hw with h | h
            · exact hinv.2 w h
            · rw [List.mem_singleton.mp h]; exact ⟨rfl, hinv.1⟩
          · split at hw
            · rcases List.mem_append.mp hw with h | h
              · exact hinv.2 w h
              · rw [List.mem_singleton.mp h]; exact ⟨rfl, hinv.1⟩
            · rcases List.mem_append.mp hw with h | h
              · exact hinv.2 w h
              · rw [List.mem_singleton.mp h]; exact ⟨rfl, hinv.1⟩
        · rcases List.mem_append.mp hw with h | h
          · exact hinv.2 w h
          · rw [List.mem_singleton.mp h]; exact ⟨rfl, hinv.1⟩
      · -- incomplete branch
        exact hinv.2 w hw

/-- Witness for C1: a concrete two-image run with one failing outcome. -/
theorem nox_c1_accounting_invariant_witness :
    (∀ j, (none : Option ProgressJson) = some j →
        j.historico ⊆ manifestImages ⟨"1", "u", [⟨"s1", ["a", "b"]⟩], 2⟩) ∧
    ∀ w ∈ (baixarAn .persistent "1" "HAC"
        (.ok ⟨"1", "u", [⟨"s1", ["a", "b"]⟩], 2⟩) none ∅
        (fun s => ⟨s == "a", none, true⟩) true false true).loopWrites,
      w.baixadas = w.historico.card ∧
      w.historico ⊆ manifestImages ⟨"1", "u", [⟨"s1", ["a", "b"]⟩], 2⟩ :=
  ⟨(by intro j h; cases h),
    nox_c1_accounting_invariant .persistent "1" "HAC"
      (⟨"1", "u", [⟨"s1", ["a", "b"]⟩], 2⟩ : Meta) none ∅
      (fun s => ⟨s == "a", none, true⟩) true false true
      (by intro j h; cases h)⟩

/-! ## C7 — summary-field extraction from the designated first task -/

/-- C7.  When the loaded record still has its placeholder patient name, the
download loop flags exactly one task (the head of the missing list) with
`extract_metadata=True`; and whenever that flagged task succeeds and its image
parses to metadata `pm`, the record left on disk carries `pm`'s
patient/study/modality fields — no other task can overwrite them. -/
theorem nox_c7_first_task_metadata (mode : StorageMode) (an servidor : String)
    (m : Meta) (js0 : Option ProgressJson) (disk0 : Finset String)
    (envOf : String → SopEnv) (p1 p2 p3 : Bool) (x : String) (xs : List String)
    (pm : PatientMeta)
    (h0 : m.total_instances ≠ 0)
    (hne : ((m.total_instances : Int) -
      ((validarHistorico mode (loadedJs an servidor m js0).historico
          disk0).card : Int)) ≠ 0)
    (hfal : faltantesList m.series
      (validarHistorico mode (loadedJs an servidor m js0).historico disk0) =
        x :: xs)
    (hname : (loadedJs an servidor m js0).patient_name = "—")
    (hsop : baixarSop mode true (envOf x) = (true, some pm)) :
    (baixarAn mode an servidor (.ok m) js0 disk0 envOf p1 p2 p3).extractedReq =
      [x] ∧
    ∃ rec, (baixarAn mode an servidor (.ok m) js0 disk0 envOf p1 p2 p3).record =
        some rec ∧
      rec.patient_name = pm.patient_name ∧
      rec.study_desc = pm.study_desc ∧
      rec.modality = pm.modality := by
  have hpre : ((loadedJs an servidor m js0).patient_name == "—") = true := by
    rw [hname]; rfl
  simp only [baixarAn, if_neg h0, if_neg hne, hfal, hpre, List.map_cons]
  set st0 : LoopState :=
    ⟨validarHistorico mode (loadedJs an servidor m js0).historico disk0, 0,
      loadedJs an servidor m js0, [], disk0, []⟩ with hst0
  simp only [runLoop, Bool.and_true]
  set st1 := loopStep mode m.total_instances true x (envOf x) st0 with hst1
  have hjs1p : st1.js.patient_name = pm.patient_name := by
    rw [hst1]; simp [loopStep, hsop, applyMeta]
  have hjs1d : st1.js.study_desc = pm.study_desc := by
    rw [hst1]; simp [loopStep, hsop, applyMeta]
  have hjs1m : st1.js.modality = pm.modality := by
    rw [hst1]; simp [loopStep, hsop, applyMeta]
  have hex1 : st1.extractedReq = [x] := by
    rw [hst1, loopStep_extractedReq]; simp [hst0]
  have hw1 : st1.writes.getLast? = some st1.js := by
    rw [hst1, loopStep_writes]
    simp [hst0]
  set stF := runLoop mode m.total_instances true false
    (xs.map (fun s => (s, envOf s))) st1 with hstF
  obtain ⟨hp, hd, hmod⟩ :=
    runLoop_js_fields mode m.total_instances true (xs.map (fun s => (s, envOf s))) st1
  have hex : stF.extractedReq = [x] := by
    rw [hstF, runLoop_extractedReq, hex1]
  have hw : stF.writes.getLast? = some stF.js := by
    rw [hstF]
    exact runLoop_getLast mode m.total_instances true false _ st1 hw1
  have hfields : stF.js.patient_name = pm.patient_name ∧
      stF.js.study_desc = pm.study_desc ∧ stF.js.modality = pm.modality := by
    rw [hstF] at *
    exact ⟨hp.trans hjs1p, hd.trans hjs1d, hmod.trans hjs1m⟩
  split
  · split
    · split
      · exact ⟨hex, _, rfl, hfields.1, hfields.2.1, hfields.2.2⟩
      · split
        · exact ⟨hex, _, rfl, hfields.1, hfields.2.1, hfields.2.2⟩
        · exact ⟨hex, _, rfl, hfields.1, hfields.2.1, hfields.2.2⟩
    · exact ⟨hex, _, rfl, hfields.1, hfields.2.1, hfields.2.2⟩
  · refine ⟨hex, _, rfl, ?_⟩
    rw [hw]
    simpa using hfields

/-- Witness for C7: fresh two-image study, both downloads succeed, the first
image parses to concrete patient metadata. -/
theorem nox_c7_first_task_metadata_witness :
    faltantesList [⟨"s1", ["a", "b"]⟩]
      (validarHistorico .persistent
        (loadedJs "1" "HAC" (⟨"1", "u", [⟨"s1", ["a", "b"]⟩], 2⟩ : Meta)
          none).historico ∅) = ["a", "b"] ∧
    (baixarAn .persistent "1" "HAC"
        (.ok (⟨"1", "u", [⟨"s1", ["a", "b"]⟩], 2⟩ : Meta)) none ∅
        (fun s => ⟨true,
          if s == "a" then some ⟨"DOE^JOHN", "CHEST", "CR"⟩ else none, true⟩)
        true false true).extractedReq = ["a"] ∧
    ∃ rec, (baixarAn .persistent "1" "HAC"
        (.ok (⟨"1", "u", [⟨"s1", ["a", "b"]⟩], 2⟩ : Meta)) none ∅
        (fun s => ⟨true,
          if s == "a" then some ⟨"DOE^JOHN", "CHEST", "CR"⟩ else none, true⟩)
        true false true).record = some rec ∧
      rec.patient_name = "DOE^JOHN" ∧
      rec.study_desc = "CHEST" ∧
      rec.modality = "CR" := by
  refine ⟨by decide, ?_⟩
  exact nox_c7_first_task_metadata .persistent "1" "HAC"
    (⟨"1", "u", [⟨"s1", ["a", "b"]⟩], 2⟩ : Meta) none ∅
    (fun s => ⟨true,
      if s == "a" then some ⟨"DOE^JOHN", "CHEST", "CR"⟩ else none, true⟩)
    true false true "a" ["b"] ⟨"DOE^JOHN", "CHEST", "CR"⟩
    (by decide) (by decide) (by decide) (by decide) (by decide)

/-! ## C2 — idempotent resume -/

lemma map_fst_map_pair (l : List String) (envOf : String → SopEnv) :
    (l.map (fun s => (s, envOf s))).map Prod.fst = l := by
  rw [List.map_map]
  exact List.map_id l

/-- A first run on a fresh record in which every download succeeds delivers the
whole manifest: success, `historico = manifest images`,
`baixadas = totalImageCount`, and every image file lands on disk. -/
lemma baixarAn_fresh_all_ok (mode : StorageMode) (hm : mode ≠ .transient)
    (an servidor : String) (m : Meta) (disk0 : Finset String)
    (envOf : String → SopEnv)
    (hN : m.total_instances = (allSops m).length)
    (hnd : (allSops m).Nodup)
    (hpos : 0 < m.total_instances)
    (henv : ∀ s, (envOf s).downloadOk = true) :
    (baixarAn mode an servidor (.ok m) none disk0 envOf true false true).ok =
      true ∧
    (baixarAn mode an servidor (.ok m) none disk0 envOf true false true).disk =
      disk0 ∪ manifestImages m ∧
    ∃ rec, (baixarAn mode an servidor (.ok m) none disk0 envOf
        true false true).record = some rec ∧
      rec.historico = manifestImages m ∧ rec.baixadas = m.total_instances := by
  have h1 : validarHistorico mode (loadedJs an servidor m none).historico disk0 =
      (∅ : Finset String) := validarHistorico_empty mode disk0
  have hcard : (manifestImages m).card = m.total_instances := by
    rw [manifestImages, List.toFinset_card_of_nodup hnd, hN]
  have hloop := runLoop_all_ok mode m.total_instances
    ((loadedJs an servidor m none).patient_name == "—") hm true
    ((allSops m).map (fun s => (s, envOf s)))
    ⟨∅, 0, loadedJs an servidor m none, [], disk0, []⟩
    (by intro p hp; obtain ⟨s, _, rfl⟩ := List.mem_map.mp hp; exact henv s)
  rw [map_fst_map_pair] at hloop
  have hfull : (runLoop mode m.total_instances
      ((loadedJs an servidor m none).patient_name == "—") true
      ((allSops m).map (fun s => (s, envOf s)))
      ⟨∅, 0, loadedJs an servidor m none, [], disk0, []⟩).historico =
      manifestImages m := by
    rw [hloop.1]; simp [manifestImages]
  have hdisk : (runLoop mode m.total_instances
      ((loadedJs an servidor m none).patient_name == "—") true
      ((allSops m).map (fun s => (s, envOf s)))
      ⟨∅, 0, loadedJs an servidor m none, [], disk0, []⟩).disk =
      disk0 ∪ manifestImages m := by
    rw [hloop.2]; simp [manifestImages]
  have hne : ((m.total_instances : Int) - ((∅ : Finset String).card : Int)) ≠ 0 := by
    simp; omega
  have hcomp : m.total_instances ≤ (runLoop mode m.total_instances
      ((loadedJs an servidor m none).patient_name == "—") true
      ((allSops m).map (fun s => (s, envOf s)))
      ⟨∅, 0, loadedJs an servidor m none, [], disk0, []⟩).historico.card := by
    rw [hfull, hcard]
  simp only [baixarAn, h1, if_neg (by omega : ¬ m.total_instances = 0),
    if_neg hne, faltantesList_empty_hist, if_pos hcomp]
  by_cases hp : mode = .pipeline
  · rw [if_pos hp]
    simp only [Bool.not_true, Bool.false_and, Bool.false_eq_true, if_false]
    exact ⟨by trivial, hdisk, _, rfl, hfull, by rw [hfull, hcard]⟩
  · rw [if_neg hp]
    exact ⟨rfl, hdisk, _, rfl, hfull, by rw [hfull, hcard]⟩

/-- A run whose loaded record already covers the manifest, with every recorded
image still on disk, takes the already-complete branch: no download is
dispatched and `historico` is written back unchanged. -/
lemma baixarAn_already_complete (mode : StorageMode) (hm : mode ≠ .transient)
    (an servidor : String) (m : Meta) (rec0 : ProgressJson)
    (disk0 : Finset String) (envOf : String → SopEnv) (p1 p2 p3 : Bool)
    (hhist : rec0.historico = manifestImages m)
    (hdisk : manifestImages m ⊆ disk0)
    (hcard : (manifestImages m).card = m.total_instances)
    (hpos : 0 < m.total_instances) :
    (baixarAn mode an servidor (.ok m) (some rec0) disk0 envOf p1 p2 p3).ok =
      true ∧
    (baixarAn mode an servidor (.ok m) (some rec0) disk0 envOf
      p1 p2 p3).fetched = [] ∧
    ((baixarAn mode an servidor (.ok m) (some rec0) disk0 envOf
      p1 p2 p3).record.map ProgressJson.historico) = some (manifestImages m) := by
  have hload : (loadedJs an servidor m (some rec0)).historico =
      manifestImages m := hhist
  have hval : validarHistorico mode (loadedJs an servidor m (some rec0)).historico
      disk0 = manifestImages m := by
    rw [validarHistorico_of_ne_transient mode hm, hload]
    exact Finset.filter_true_of_mem (fun x hx => hdisk hx)
  have hzero : ((m.total_instances : Int) - ((manifestImages m).card : Int)) = 0 := by
    rw [hcard]; omega
  simp only [baixarAn, hval, if_neg (by omega : ¬ m.total_instances = 0),
    if_pos hzero]
  refine ⟨by trivial, by trivial, ?_⟩
  simp [loadedJs, hhist]

/-- C2.  With a manifest of `N` distinct images and no network failures, a
first `baixar_an` call succeeds and persists `historico` = the manifest's
image set, of size `N`; an immediately following second call (fed the record
and disk state the first call left) succeeds, dispatches no download, and
leaves `historico` unchanged. -/
theorem nox_c2_idempotent_resume (mode : StorageMode) (hm : mode ≠ .transient)
    (an servidor : String) (m : Meta) (envOf : String → SopEnv)
    (hN : m.total_instances = (allSops m).length)
    (hnd : (allSops m).Nodup)
    (hpos : 0 < m.total_instances)
    (henv : ∀ s, (envOf s).downloadOk = true) :
    (baixarAn mode an servidor (.ok m) none ∅ envOf true false true).ok = true ∧
    ((baixarAn mode an servidor (.ok m) none ∅ envOf
        true false true).record.map ProgressJson.historico) =
      some (manifestImages m) ∧
    (manifestImages m).card = m.total_instances ∧
    ((baixarAn mode an servidor (.ok m)
        (baixarAn mode an servidor (.ok m) none ∅ envOf true false true).record
        (baixarAn mode an servidor (.ok m) none ∅ envOf true false true).disk
        envOf true false true).ok = true ∧
      (baixarAn mode an servidor (.ok m)
        (baixarAn mode an servidor (.ok m) none ∅ envOf true false true).record
        (baixarAn mode an servidor (.ok m) none ∅ envOf true false true).disk
        envOf true false true).fetched = [] ∧
      ((baixarAn mode an servidor (.ok m)
        (baixarAn mode an servidor (.ok m) none ∅ envOf true false true).record
        (baixarAn mode an servidor (.ok m) none ∅ envOf true false true).disk
        envOf true false true).record.map ProgressJson.historico) =
        some (manifestImages m)) := by
  have hcard : (manifestImages m).card = m.total_instances := by
    rw [manifestImages, List.toFinset_card_of_nodup hnd, hN]
  obtain ⟨hok1, hdisk1, rec1, hrec1, hrech, hrecb⟩ :=
    baixarAn_fresh_all_ok mode hm an servidor m ∅ envOf hN hnd hpos henv
  refine ⟨hok1, by rw [hrec1]; simp [hrech], hcard, ?_⟩
  rw [hrec1, hdisk1]
  exact baixarAn_already_complete mode hm an servidor m rec1 _ envOf true false
    true hrech (by simp) hcard hpos

/-- Witness for C2: two-image manifest, all downloads succeed, persistent
mode. -/
theorem nox_c2_idempotent_resume_witness :
    ((⟨"1", "u", [⟨"s1", ["a", "b"]⟩], 2⟩ : Meta).total_instances =
      (allSops (⟨"1", "u", [⟨"s1", ["a", "b"]⟩], 2⟩ : Meta)).length) ∧
    (allSops (⟨"1", "u", [⟨"s1", ["a", "b"]⟩], 2⟩ : Meta)).Nodup ∧
    ((baixarAn .persistent "1" "HAC"
        (.ok (⟨"1", "u", [⟨"s1", ["a", "b"]⟩], 2⟩ : Meta)) none ∅
        (fun _ => ⟨true, none, true⟩) true false true).ok = true ∧
      ((baixarAn .persistent "1" "HAC"
        (.ok (⟨"1", "u", [⟨"s1", ["a", "b"]⟩], 2⟩ : Meta)) none ∅
        (fun _ => ⟨true, none, true⟩) true false true).record.map
          ProgressJson.historico) =
        some (manifestImages (⟨"1", "u", [⟨"s1", ["a", "b"]⟩], 2⟩ : Meta)) ∧
      (manifestImages (⟨"1", "u", [⟨"s1", ["a", "b"]⟩], 2⟩ : Meta)).card =
        (⟨"1", "u", [⟨"s1", ["a", "b"]⟩], 2⟩ : Meta).total_instances ∧
      ((baixarAn .persistent "1" "HAC"
          (.ok (⟨"1", "u", [⟨"s1", ["a", "b"]⟩], 2⟩ : Meta))
          (baixarAn .persistent "1" "HAC"
            (.ok (⟨"1", "u", [⟨"s1", ["a", "b"]⟩], 2⟩ : Meta)) none ∅
            (fun _ => ⟨true, none, true⟩) true false true).record
          (baixarAn .persistent "1" "HAC"
            (.ok (⟨"1", "u", [⟨"s1", ["a", "b"]⟩], 2⟩ : Meta)) none ∅
            (fun _ => ⟨true, none, true⟩) true false true).disk
          (fun _ => ⟨true, none, true⟩) true false true).ok = true ∧
        (baixarAn .persistent "1" "HAC"
          (.ok (⟨"1", "u", [⟨"s1", ["a", "b"]⟩], 2⟩ : Meta))
          (baixarAn .persistent "1" "HAC"
            (.ok (⟨"1", "u", [⟨"s1", ["a", "b"]⟩], 2⟩ : Meta)) none ∅
            (fun _ => ⟨true, none, true⟩) true false true).record
          (baixarAn .persistent "1" "HAC"
            (.ok (⟨"1", "u", [⟨"s1", ["a", "b"]⟩], 2⟩ : Meta)) none ∅
            (fun _ => ⟨true, none, true⟩) true false true).disk
          (fun _ => ⟨true, none, true⟩) true false true).fetched = [] ∧
        ((baixarAn .persistent "1" "HAC"
          (.ok (⟨"1", "u", [⟨"s1", ["a", "b"]⟩], 2⟩ : Meta))
          (baixarAn .persistent "1" "HAC"
            (.ok (⟨"1", "u", [⟨"s1", ["a", "b"]⟩], 2⟩ : Meta)) none ∅
            (fun _ => ⟨true, none, true⟩) true false true).record
          (baixarAn .persistent "1" "HAC"
            (.ok (⟨"1", "u", [⟨"s1", ["a", "b"]⟩], 2⟩ : Meta)) none ∅
            (fun _ => ⟨true, none, true⟩) true false true).disk
          (fun _ => ⟨true, none, true⟩) true false true).record.map
            ProgressJson.historico) =
          some (manifestImages (⟨"1", "u", [⟨"s1", ["a", "b"]⟩], 2⟩ : Meta)))) :=
  ⟨(by decide), (by decide),
    nox_c2_idempotent_resume .persistent (by decide) "1" "HAC"
      (⟨"1", "u", [⟨"s1", ["a", "b"]⟩], 2⟩ : Meta)
      (fun _ => ⟨true, none, true⟩) (by decide) (by decide) (by decide)
      (fun _ => rfl)⟩

/-! ## C3 — reconciliation after a deleted image file -/

lemma filter_mem_erase (s : Finset String) (x : String) :
    s.filter (· ∈ s.erase x) = s.erase x := by
  ext y
  simp only [Finset.mem_filter, Finset.mem_erase]
  tauto

lemma nodup_filter_eq_singleton {l : List String} {x : String}
    (hnd : l.Nodup) (hx : x ∈ l) :
    l.filter (fun y => y = x) = [x] := by
  induction l with
  | nil => cases hx
  | cons a as ih =>
      rw [List.nodup_cons] at hnd
      rcases List.mem_cons.mp hx with h | h
      · have ha : a = x := h.symm
        subst ha
        rw [List.filter_cons_of_pos (by simp)]
        have hnil : as.filter (fun y => y = a) = [] := by
          rw [List.filter_eq_nil_iff]
          intro b hb
          simp only [decide_eq_true_eq]
          intro hba
          exact hnd.1 (hba ▸ hb)
        rw [hnil]
      · have hax : ¬ (a = x) := fun hax => hnd.1 (hax ▸ h)
        rw [List.filter_cons_of_neg (by simpa using hax)]
        exact ih hnd.2 h

/-- C3.  A study recorded complete whose `historico` equals the manifest's
image set, with exactly one recorded image `x` missing from disk (deleted or
zero-size): the next run computes the missing list as exactly `[x]`,
re-downloads it, and ends complete with `historico` unchanged. -/
theorem nox_c3_redownload_exactly_missing (mode : StorageMode)
    (hm : mode ≠ .transient) (an servidor : String) (m : Meta)
    (rec0 : ProgressJson) (envOf : String → SopEnv) (x : String)
    (hN : m.total_instances = (allSops m).length)
    (hnd : (allSops m).Nodup)
    (hx : x ∈ allSops m)
    (hhist : rec0.historico = manifestImages m)
    (henvx : (envOf x).downloadOk = true) :
    (baixarAn mode an servidor (.ok m) (some rec0)
      ((manifestImages m).erase x) envOf true false true).fetched = [x] ∧
    (baixarAn mode an servidor (.ok m) (some rec0)
      ((manifestImages m).erase x) envOf true false true).ok = true ∧
    ((baixarAn mode an servidor (.ok m) (some rec0)
      ((manifestImages m).erase x) envOf true false
      true).record.map ProgressJson.historico) = some (manifestImages m) := by
  have hxm : x ∈ manifestImages m := by
    simpa [manifestImages] using hx
  have hcard : (manifestImages m).card = m.total_instances := by
    rw [manifestImages, List.toFinset_card_of_nodup hnd, hN]
  have hpos : 0 < m.total_instances := by
    rw [← hcard]
    exact Finset.card_pos.mpr ⟨x, hxm⟩
  have hval : validarHistorico mode (loadedJs an servidor m (some rec0)).historico
      ((manifestImages m).erase x) = (manifestImages m).erase x := by
    rw [validarHistorico_of_ne_transient mode hm]
    show rec0.historico.filter _ = _
    rw [hhist]
    exact filter_mem_erase _ x
  have hec : ((manifestImages m).erase x).card = m.total_instances - 1 := by
    rw [Finset.card_erase_of_mem hxm, hcard]
  have hne : ((m.total_instances : Int) -
      (((manifestImages m).erase x).card : Int)) ≠ 0 := by
    rw [hec]
    have h1 : (1 : Nat) ≤ m.total_instances := hpos
    push_cast [Nat.cast_sub h1]
    omega
  have hfl : faltantesList m.series ((manifestImages m).erase x) = [x] := by
    rw [faltantesList_eq_filter]
    have hcongr : (m.series.flatMap (·.instances)).filter
        (fun sop => sop ∉ (manifestImages m).erase x) =
        (m.series.flatMap (·.instances)).filter (fun y => y = x) := by
      apply List.filter_congr
      intro y hy
      have hym : y ∈ manifestImages m := by
        simpa [manifestImages, allSops] using hy
      simp only [Finset.mem_erase, decide_eq_true_eq, decide_not]
      by_cases hyx : y = x <;> simp [hyx, hym]
    rw [hcongr]
    exact nodup_filter_eq_singleton hnd hx
  have hmap : ([x].map (fun s => (s, envOf s))) = [(x, envOf x)] := rfl
  have hloop := runLoop_all_ok mode m.total_instances
    ((loadedJs an servidor m (some rec0)).patient_name == "—") hm true
    [(x, envOf x)]
    ⟨(manifestImages m).erase x, 0, loadedJs an servidor m (some rec0), [],
      (manifestImages m).erase x, []⟩
    (by
      intro p hp
      rw [List.mem_singleton.mp hp]
      exact henvx)
  have hfull : (runLoop mode m.total_instances
      ((loadedJs an servidor m (some rec0)).patient_name == "—") true
      [(x, envOf x)]
      ⟨(manifestImages m).erase x, 0, loadedJs an servidor m (some rec0), [],
        (manifestImages m).erase x, []⟩).historico = manifestImages m := by
    rw [hloop.1]
    have h2 : ([(x, envOf x)].map Prod.fst).toFinset = {x} := by simp
    rw [h2]
    show (manifestImages m).erase x ∪ {x} = manifestImages m
    rw [Finset.union_comm]
    have h3 : ({x} : Finset String) ∪ (manifestImages m).erase x =
        insert x ((manifestImages m).erase x) := by
      ext y
      simp [Finset.mem_union, Finset.mem_insert]
    rw [h3, Finset.insert_erase hxm]
  have hcomp : m.total_instances ≤ (runLoop mode m.total_instances
      ((loadedJs an servidor m (some rec0)).patient_name == "—") true
      [(x, envOf x)]
      ⟨(manifestImages m).erase x, 0, loadedJs an servidor m (some rec0), [],
        (manifestImages m).erase x, []⟩).historico.card := by
    rw [hfull, hcard]
  simp only [baixarAn, hval, if_neg (by omega : ¬ m.total_instances = 0),
    if_neg hne, hfl, hmap, if_pos hcomp]
  by_cases hp : mode = .pipeline
  · rw [if_pos hp]
    simp only [Bool.not_true, Bool.false_and, Bool.false_eq_true, if_false]
    exact ⟨by trivial, by trivial, by simp [hfull]⟩
  · rw [if_neg hp]
    exact ⟨by trivial, by trivial, by simp [hfull]⟩

/-- Witness for C3: three-image study, image `"b"` deleted from disk. -/
theorem nox_c3_redownload_exactly_missing_witness :
    ("b" ∈ allSops (⟨"1", "u", [⟨"s1", ["a", "b", "c"]⟩], 3⟩ : Meta)) ∧
    (baixarAn .persistent "1" "HAC"
      (.ok (⟨"1", "u", [⟨"s1", ["a", "b", "c"]⟩], 3⟩ : Meta))
      (some ⟨"1", "HAC", "u", 3, 3, "completo",
        manifestImages (⟨"1", "u", [⟨"s1", ["a", "b", "c"]⟩], 3⟩ : Meta),
        "P", "D", "CR"⟩)
      ((manifestImages (⟨"1", "u", [⟨"s1", ["a", "b", "c"]⟩], 3⟩ : Meta)).erase
        "b")
      (fun _ => ⟨true, none, true⟩) true false true).fetched = ["b"] ∧
    (baixarAn .persistent "1" "HAC"
      (.ok (⟨"1", "u", [⟨"s1", ["a", "b", "c"]⟩], 3⟩ : Meta))
      (some ⟨"1", "HAC", "u", 3, 3, "completo",
        manifestImages (⟨"1", "u", [⟨"s1", ["a", "b", "c"]⟩], 3⟩ : Meta),
        "P", "D", "CR"⟩)
      ((manifestImages (⟨"1", "u", [⟨"s1", ["a", "b", "c"]⟩], 3⟩ : Meta)).erase
        "b")
      (fun _ => ⟨true, none, true⟩) true false true).ok = true ∧
    ((baixarAn .persistent "1" "HAC"
      (.ok (⟨"1", "u", [⟨"s1", ["a", "b", "c"]⟩], 3⟩ : Meta))
      (some ⟨"1", "HAC", "u", 3, 3, "completo",
        manifestImages (⟨"1", "u", [⟨"s1", ["a", "b", "c"]⟩], 3⟩ : Meta),
        "P", "D", "CR"⟩)
      ((manifestImages (⟨"1", "u", [⟨"s1", ["a", "b", "c"]⟩], 3⟩ : Meta)).erase
        "b")
      (fun _ => ⟨true, none, true⟩) true false true).record.map
        ProgressJson.historico) =
      some (manifestImages (⟨"1", "u", [⟨"s1", ["a", "b", "c"]⟩], 3⟩ : Meta)) :=
  ⟨(by decide),
    nox_c3_redownload_exactly_missing .persistent (by decide) "1" "HAC"
      (⟨"1", "u", [⟨"s1", ["a", "b", "c"]⟩], 3⟩ : Meta)
      (⟨"1", "HAC", "u", 3, 3, "completo",
        manifestImages (⟨"1", "u", [⟨"s1", ["a", "b", "c"]⟩], 3⟩ : Meta),
        "P", "D", "CR"⟩ : ProgressJson)
      (fun _ => ⟨true, none, true⟩) "b" (by decide) (by decide) (by decide)
      rfl rfl⟩

/-! ## C4 — zero-image manifest fails before any progress write -/

/-- C4.  A manifest response that parses but contains zero images makes
`_parse_xml` raise, so `baixar_an` returns failure without performing a single
`_gravar_json`; and even a manifest value reporting `total_instances = 0`
(the engine's own defensive check) fails before the first write. -/
theorem nox_c4_zero_images_no_write (an servidor : String) (x : XmlStudy)
    (hzero : xmlImageCount x = 0) :
    (∃ e, parseXml an (some x) = .error e) ∧
    (∀ (mode : StorageMode) (js0 : Option ProgressJson) (disk0 : Finset String)
        (envOf : String → SopEnv) (p1 p2 p3 : Bool),
      (baixarAn mode an servidor (parseXml an (some x)) js0 disk0 envOf
        p1 p2 p3).ok = false ∧
      (baixarAn mode an servidor (parseXml an (some x)) js0 disk0 envOf
        p1 p2 p3).writes = []) ∧
    (∀ (mode : StorageMode) (m : Meta) (js0 : Option ProgressJson)
        (disk0 : Finset String) (envOf : String → SopEnv) (p1 p2 p3 : Bool),
      m.total_instances = 0 →
      (baixarAn mode an servidor (.ok m) js0 disk0 envOf p1 p2 p3).ok = false ∧
      (baixarAn mode an servidor (.ok m) js0 disk0 envOf p1 p2 p3).writes = []) := by
  have herr : ∃ e, parseXml an (some x) = .error e := by
    have h0 : ((parseSeries x.series).map (fun s => s.instances.length)).sum = 0 :=
      hzero
    simp only [parseXml]
    by_cases hu : x.uid = ""
    · rw [if_pos hu]
      exact ⟨_, rfl⟩
    · rw [if_neg hu, if_pos h0]
      exact ⟨_, rfl⟩
  refine ⟨herr, ?_, ?_⟩
  · intro mode js0 disk0 envOf p1 p2 p3
    obtain ⟨e, he⟩ := herr
    rw [he]
    exact ⟨by trivial, by trivial⟩
  · intro mode m js0 disk0 envOf p1 p2 p3 h0
    simp only [baixarAn, if_pos h0]
    exact ⟨by trivial, by trivial⟩

/-- Witness for C4: a parsed study with one series and no instances. -/
theorem nox_c4_zero_images_no_write_witness :
    xmlImageCount (⟨"u", [⟨"s1", []⟩]⟩ : XmlStudy) = 0 ∧
    ((∃ e, parseXml "1" (some (⟨"u", [⟨"s1", []⟩]⟩ : XmlStudy)) = .error e) ∧
    (∀ (mode : StorageMode) (js0 : Option ProgressJson) (disk0 : Finset String)
        (envOf : String → SopEnv) (p1 p2 p3 : Bool),
      (baixarAn mode "1" "HAC"
        (parseXml "1" (some (⟨"u", [⟨"s1", []⟩]⟩ : XmlStudy))) js0 disk0 envOf
        p1 p2 p3).ok = false ∧
      (baixarAn mode "1" "HAC"
        (parseXml "1" (some (⟨"u", [⟨"s1", []⟩]⟩ : XmlStudy))) js0 disk0 envOf
        p1 p2 p3).writes = []) ∧
    (∀ (mode : StorageMode) (m : Meta) (js0 : Option ProgressJson)
        (disk0 : Finset String) (envOf : String → SopEnv) (p1 p2 p3 : Bool),
      m.total_instances = 0 →
      (baixarAn mode "1" "HAC" (.ok m) js0 disk0 envOf p1 p2 p3).ok = false ∧
      (baixarAn mode "1" "HAC" (.ok m) js0 disk0 envOf p1 p2 p3).writes = [])) :=
  ⟨(by decide), nox_c4_zero_images_no_write "1" "HAC"
    (⟨"u", [⟨"s1", []⟩]⟩ : XmlStudy) (by decide)⟩

/-! ## C8 — atomicity of `_gravar_json` -/

/-- C8.  At every observable phase of a `_gravar_json` write — before it, while
the temporary sibling file is being filled, after the temporary file is
complete, and after the atomic `os.replace` — the target path holds either the
previous complete record or the new complete record, never a partial one; a
target that existed before never becomes absent; and once `os.replace` has run
the target holds exactly the new content. -/
theorem nox_c8_gravar_json_atomic (an content : String) (fs : FsMap)
    (phase : WritePhase) :
    (gravarJsonAt an content fs phase (jsonPathOf an) = fs (jsonPathOf an) ∨
      gravarJsonAt an content fs phase (jsonPathOf an) = some content) ∧
    ((fs (jsonPathOf an)).isSome →
      (gravarJsonAt an content fs phase (jsonPathOf an)).isSome) ∧
    (phase = .replaced →
      gravarJsonAt an content fs phase (jsonPathOf an) = some content) := by
  cases phase with
  | start => exact ⟨Or.inl rfl, fun h => h, fun h => by cases h⟩
  | tmpMid s =>
      refine ⟨Or.inl ?_, fun h => ?_, fun h => by cases h⟩
      · simp [gravarJsonAt, if_neg (jsonPath_ne_tmpPath an)]
      · simpa [gravarJsonAt, if_neg (jsonPath_ne_tmpPath an)] using h
  | tmpDone =>
      refine ⟨Or.inl ?_, fun h => ?_, fun h => by cases h⟩
      · simp [gravarJsonAt, if_neg (jsonPath_ne_tmpPath an)]
      · simpa [gravarJsonAt, if_neg (jsonPath_ne_tmpPath an)] using h
  | replaced =>
      refine ⟨Or.inr ?_, fun h => ?_, fun _ => ?_⟩ <;>
        simp [gravarJsonAt]

/-! ## C10 — the stop signal is monotone -/

/-- C10.  Once the controller's `should_stop` is `true` — whether set by
`stop()` or by `register_success` reaching the limit — no sequence of further
controller operations (`pause`, `resume`, `set_success_limit`,
`register_success`, `wait_if_paused`, even another `stop`) ever makes it
`false` again. -/
theorem nox_c10_stop_monotone (c : Controller) (h : c.shouldStop = true)
    (ops : List Controller.Op) : (c.runOps ops).shouldStop = true := by
  induction ops generalizing c with
  | nil => exact h
  | cons op rest ih =>
      exact ih (c.apply op) (Controller.apply_stop_mono c op h)

/-- Witness for C10: a stopped controller stays stopped through a
resume/pause/limit/success/wait sequence. -/
theorem nox_c10_stop_monotone_witness :
    ((Controller.init (some 2)).apply .stop).shouldStop = true ∧
    (((Controller.init (some 2)).apply .stop).runOps
      [.resume, .pause, .setSuccessLimit (some 5), .registerSuccess,
        .waitIfPaused, .resume]).shouldStop = true :=
  ⟨(by decide),
    nox_c10_stop_monotone ((Controller.init (some 2)).apply .stop) (by decide)
      [.resume, .pause, .setSuccessLimit (some 5), .registerSuccess,
        .waitIfPaused, .resume]⟩

/-! ## C5 — pipeline representative-image selection
(`_select_pipeline_dcm`, `pipeline.py` lines 107–136 and `downloader.py`
lines 317–355)

Each candidate file is enriched with `(SeriesInstanceUID, SeriesNumber,
InstanceNumber)` read from the DICOM header (the `pydicom` read is abstracted:
the attributes travel with the file; a failed read yields the defaults
`""`/`0`/`0` exactly as the `except` branch does). -/

structure DicomFile where
  name : String
  series_uid : String
  series_num : Nat
  instance_num : Nat
deriving DecidableEq, Repr

/-- Python's string ordering: lexicographic on code points. -/
def charListLt : List Char → List Char → Bool
  | _, [] => false
  | [], _ :: _ => true
  | a :: as, b :: bs =>
      if a < b then true else if b < a then false else charListLt as bs

def strLt (a b : String) : Prop := charListLt a.data b.data = true

instance : DecidableRel strLt := fun a b => by
  unfold strLt
  infer_instance

/-- The Python sort key
`(series_num, series_uid, instance_num, filename)`, compared
lexicographically (string components by code point, as Python compares
them). -/
def keyLE (a b : DicomFile) : Prop :=
  a.series_num < b.series_num ∨
    (a.series_num = b.series_num ∧
      (strLt a.series_uid b.series_uid ∨
        (a.series_uid = b.series_uid ∧
          (a.instance_num < b.instance_num ∨
            (a.instance_num = b.instance_num ∧
              (strLt a.name b.name ∨ a.name = b.name))))))

instance : DecidableRel keyLE := fun a b => by
  unfold keyLE
  infer_instance

/-- The dict key: `item[1] or f"__series_{idx}"`. -/
def seriesKeyAt (f : DicomFile) (idx : Nat) : String :=
  if f.series_uid = "" then "__series_" ++ toString idx else f.series_uid

/-- The `first_idx_by_series` insertion-ordered dict, built by walking the
enumerated sorted list. -/
def buildFirstIdxAux : List (String × Nat) → List (Nat × DicomFile) →
    List (String × Nat)
  | acc, [] => acc
  | acc, (idx, f) :: rest =>
      let uid := seriesKeyAt f idx
      if uid ∈ acc.map Prod.fst then buildFirstIdxAux acc rest
      else buildFirstIdxAux (acc ++ [(uid, idx)]) rest

def buildFirstIdx (l : List DicomFile) : List (String × Nat) :=
  buildFirstIdxAux [] l.enum

/-- `_select_pipeline_dcm`: sort by the stable key, take the first file of the
second distinct series if there are two or more series, else the second file
overall, else the single file (`none` only for an empty input, which callers
guard against). -/
def selectPipelineDcm (dicomFiles : List DicomFile) : Option DicomFile :=
  let enriched := List.insertionSort keyLE dicomFiles
  let uniqueSeries := buildFirstIdx enriched
  match uniqueSeries with
  | _ :: (_, idx2) :: _ => enriched[idx2]?
  | _ =>
      match enriched with
      | _ :: b :: _ => some b
      | [a] => some a
      | [] => none

/-- The series identifiers in order of first appearance. -/
def distinctInOrder (l : List String) : List String :=
  l.foldl (fun acc u => if u ∈ acc then acc else acc ++ [u]) []

/-- Modelled from the spec's words (§4.5 step 2): order the images by
(series number, series identifier, image-within-series number, filename);
with two or more distinct series return the first image of the second
distinct series in that order; otherwise with two or more images the second
image; otherwise the single image. -/
def specSelectRepresentative (dicomFiles : List DicomFile) : Option DicomFile :=
  let ordered := List.insertionSort keyLE dicomFiles
  match distinctInOrder (ordered.map (·.series_uid)) with
  | _ :: uid2 :: _ => ordered.find? (fun f => f.series_uid == uid2)
  | _ =>
      match ordered with
      | _ :: b :: _ => some b
      | [a] => some a
      | [] => none

/-- The canonical content of the `first_idx_by_series` dict for a list whose
series identifiers are all non-empty. -/
def firstIdxTable (p : List DicomFile) : List (String × Nat) :=
  (distinctInOrder (p.map (·.series_uid))).map
    (fun u => (u, p.findIdx (fun f => f.series_uid == u)))

/-! ### Characterizing the insertion-ordered first-index dict -/

lemma mem_foldl_distinct (u : String) :
    ∀ (l acc : List String),
      u ∈ l.foldl (fun acc v => if v ∈ acc then acc else acc ++ [v]) acc ↔
        u ∈ acc ∨ u ∈ l := by
  intro l
  induction l with
  | nil => simp
  | cons a t ih =>
      intro acc
      simp only [List.foldl_cons]
      rw [ih]
      by_cases ha : a ∈ acc
      · rw [if_pos ha]
        simp only [List.mem_cons]
        constructor
        · rintro (h | h)
          · exact Or.inl h
          · exact Or.inr (Or.inr h)
        · rintro (h | h | h)
          · exact Or.inl h
          · exact Or.inl (h ▸ ha)
          · exact Or.inr h
      · rw [if_neg ha]
        simp only [List.mem_append, List.mem_singleton, List.mem_cons]
        tauto

lemma mem_distinctInOrder (u : String) (l : List String) :
    u ∈ distinctInOrder l ↔ u ∈ l := by
  unfold distinctInOrder
  rw [mem_foldl_distinct]
  simp

lemma distinctInOrder_append (l : List String) (u : String) :
    distinctInOrder (l ++ [u]) =
      if u ∈ distinctInOrder l then distinctInOrder l
      else distinctInOrder l ++ [u] := by
  unfold distinctInOrder
  rw [List.foldl_append]
  rfl

lemma findIdx_append_of_exists {α : Type} (p : α → Bool) :
    ∀ (pre l' : List α), (∃ a ∈ pre, p a = true) →
      (pre ++ l').findIdx p = pre.findIdx p := by
  intro pre
  induction pre with
  | nil => intro l' h; simp at h
  | cons a t ih =>
      intro l' h
      by_cases hp : p a = true
      · simp [List.findIdx_cons, hp]
      · have hp' : p a = false := by revert hp; cases p a <;> simp
        obtain ⟨b, hb, hpb⟩ := h
        rcases List.mem_cons.mp hb with rfl | hb'
        · rw [hpb] at hp'; cases hp'
        · simp [List.findIdx_cons, hp', ih l' ⟨b, hb', hpb⟩]

lemma findIdx_append_of_forall {α : Type} (p : α → Bool) :
    ∀ (pre l' : List α), (∀ a ∈ pre, p a = false) →
      (pre ++ l').findIdx p = pre.length + l'.findIdx p := by
  intro pre
  induction pre with
  | nil => intro l' _; simp
  | cons a t ih =>
      intro l' h
      have ha : p a = false := h a (List.mem_cons_self _ _)
      simp only [List.cons_append, List.findIdx_cons, ha, cond_false,
        List.length_cons]
      rw [ih l' (fun b hb => h b (List.mem_cons_of_mem _ hb))]
      omega

lemma getElem?_findIdx {α : Type} (p : α → Bool) :
    ∀ (s : List α), (∃ a ∈ s, p a = true) →
      s[s.findIdx p]? = s.find? p := by
  intro s
  induction s with
  | nil => intro h; simp at h
  | cons a t ih =>
      intro h
      by_cases hp : p a = true
      · simp [List.findIdx_cons, hp, List.find?_cons]
      · have hp' : p a = false := by revert hp; cases p a <;> simp
        obtain ⟨b, hb, hpb⟩ := h
        rcases List.mem_cons.mp hb with rfl | hb'
        · rw [hpb] at hp'; cases hp'
        · simp only [List.findIdx_cons, hp', cond_false, List.find?_cons,
            List.getElem?_cons_succ]
          exact ih ⟨b, hb', hpb⟩

lemma firstIdxTable_map_fst (p : List DicomFile) :
    (firstIdxTable p).map Prod.fst =
      distinctInOrder (p.map (·.series_uid)) := by
  unfold firstIdxTable
  rw [List.map_map]
  exact List.map_id _

lemma firstIdxTable_append (p : List DicomFile) (f : DicomFile) :
    firstIdxTable (p ++ [f]) =
      if f.series_uid ∈ p.map (·.series_uid) then firstIdxTable p
      else firstIdxTable p ++ [(f.series_uid, p.length)] := by
  unfold firstIdxTable
  have hmap : (p ++ [f]).map (·.series_uid) =
      p.map (·.series_uid) ++ [f.series_uid] := by simp
  rw [hmap, distinctInOrder_append]
  by_cases hf : f.series_uid ∈ p.map (·.series_uid)
  · rw [if_pos ((mem_distinctInOrder _ _).mpr hf), if_pos hf]
    apply List.map_congr_left
    intro u hu
    have hu' : u ∈ p.map (·.series_uid) := (mem_distinctInOrder _ _).mp hu
    obtain ⟨a, ha, hau⟩ := List.mem_map.mp hu'
    rw [findIdx_append_of_exists _ p [f] ⟨a, ha, by simp [hau]⟩]
  · rw [if_neg (fun hc => hf ((mem_distinctInOrder _ _).mp hc)), if_neg hf]
    rw [List.map_append]
    congr 1
    · apply List.map_congr_left
      intro u hu
      have hu' : u ∈ p.map (·.series_uid) := (mem_distinctInOrder _ _).mp hu
      obtain ⟨a, ha, hau⟩ := List.mem_map.mp hu'
      rw [findIdx_append_of_exists _ p [f] ⟨a, ha, by simp [hau]⟩]
    · have hall : ∀ a ∈ p, (a.series_uid == f.series_uid) = false := by
        intro a ha
        have : a.series_uid ≠ f.series_uid := by
          intro hEq
          exact hf (hEq ▸ List.mem_map_of_mem _ ha)
        simpa using this
      rw [List.map_singleton]
      rw [findIdx_append_of_forall _ p [f] hall]
      simp [List.findIdx_cons]

lemma buildFirstIdxAux_spec :
    ∀ (rest pre : List DicomFile),
      (∀ f ∈ rest, f.series_uid ≠ "") →
      buildFirstIdxAux (firstIdxTable pre) (List.enumFrom pre.length rest) =
        firstIdxTable (pre ++ rest) := by
  intro rest
  induction rest with
  | nil =>
      intro pre _
      simp [buildFirstIdxAux, List.enumFrom]
  | cons f rest ih =>
      intro pre h
      have hf : f.series_uid ≠ "" := h f (List.mem_cons_self _ _)
      have hkey : seriesKeyAt f pre.length = f.series_uid := if_neg hf
      simp only [List.enumFrom, buildFirstIdxAux, hkey, firstIdxTable_map_fst]
      have hrest : ∀ g ∈ rest, g.series_uid ≠ "" :=
        fun g hg => h g (List.mem_cons_of_mem _ hg)
      have hlen : pre.length + 1 = (pre ++ [f]).length := by simp
      have happ : (pre ++ [f]) ++ rest = pre ++ f :: rest := by simp
      by_cases hmem : f.series_uid ∈ pre.map (·.series_uid)
      · rw [if_pos ((mem_distinctInOrder _ _).mpr hmem)]
        have htab : firstIdxTable pre = firstIdxTable (pre ++ [f]) := by
          rw [firstIdxTable_append, if_pos hmem]
        rw [htab, hlen, ih (pre ++ [f]) hrest, happ]
      · rw [if_neg (fun hc => hmem ((mem_distinctInOrder _ _).mp hc))]
        have htab : firstIdxTable pre ++ [(f.series_uid, pre.length)] =
            firstIdxTable (pre ++ [f]) := by
          rw [firstIdxTable_append, if_neg hmem]
        rw [htab, hlen, ih (pre ++ [f]) hrest, happ]

/-- C5.  For candidate files whose series identifiers are all non-empty,
`_select_pipeline_dcm` implements exactly the spec's rule: order by
(series number, series identifier, image-within-series number, filename);
with two or more distinct series return the first image of the second
distinct series, else with two or more files the second file, else the
single file. -/
theorem nox_c5_representative_selection (l : List DicomFile)
    (h2 : ∀ f ∈ l, f.series_uid ≠ "") :
    selectPipelineDcm l = specSelectRepresentative l := by
  have hs2 : ∀ f ∈ List.insertionSort keyLE l, f.series_uid ≠ "" :=
    fun f hf => h2 f ((List.perm_insertionSort keyLE l).subset hf)
  have htab : buildFirstIdx (List.insertionSort keyLE l) =
      firstIdxTable (List.insertionSort keyLE l) := by
    have hspec := buildFirstIdxAux_spec (List.insertionSort keyLE l) [] hs2
    simpa [buildFirstIdx, List.enum] using hspec
  simp only [selectPipelineDcm, specSelectRepresentative, htab]
  cases hd : distinctInOrder ((List.insertionSort keyLE l).map (·.series_uid)) with
  | nil => simp [firstIdxTable, hd]
  | cons u1 tl =>
      cases tl with
      | nil => simp [firstIdxTable, hd]
      | cons u2 tl2 =>
          simp only [firstIdxTable, hd, List.map_cons]
          have hu2 : u2 ∈ (List.insertionSort keyLE l).map (·.series_uid) := by
            rw [← mem_distinctInOrder, hd]
            exact List.mem_cons_of_mem _ (List.mem_cons_self _ _)
          obtain ⟨a, ha, hau⟩ := List.mem_map.mp hu2
          exact getElem?_findIdx _ _ ⟨a, ha, by simp [hau]⟩

/-- Witness for C5: three series of sizes {2,1,3}; the selector picks the
first image of the second distinct series (`b1`), not the globally second
file (`a2`). -/
theorem nox_c5_representative_selection_witness :
    (∀ f ∈ [(⟨"c2", "sC", 3, 2⟩ : DicomFile), ⟨"a1", "sA", 1, 1⟩,
        ⟨"c1", "sC", 3, 1⟩, ⟨"b1", "sB", 2, 1⟩, ⟨"a2", "sA", 1, 2⟩,
        ⟨"c3", "sC", 3, 3⟩], f.series_uid ≠ "") ∧
    selectPipelineDcm [(⟨"c2", "sC", 3, 2⟩ : DicomFile), ⟨"a1", "sA", 1, 1⟩,
        ⟨"c1", "sC", 3, 1⟩, ⟨"b1", "sB", 2, 1⟩, ⟨"a2", "sA", 1, 2⟩,
        ⟨"c3", "sC", 3, 3⟩] =
      specSelectRepresentative [(⟨"c2", "sC", 3, 2⟩ : DicomFile),
        ⟨"a1", "sA", 1, 1⟩, ⟨"c1", "sC", 3, 1⟩, ⟨"b1", "sB", 2, 1⟩,
        ⟨"a2", "sA", 1, 2⟩, ⟨"c3", "sC", 3, 3⟩] ∧
    selectPipelineDcm [(⟨"c2", "sC", 3, 2⟩ : DicomFile), ⟨"a1", "sA", 1, 1⟩,
        ⟨"c1", "sC", 3, 1⟩, ⟨"b1", "sB", 2, 1⟩, ⟨"a2", "sA", 1, 2⟩,
        ⟨"c3", "sC", 3, 3⟩] = some ⟨"b1", "sB", 2, 1⟩ :=
  ⟨(by decide),
    nox_c5_representative_selection _ (by decide),
    (nox_c5_representative_selection _ (by decide)).trans (by decide)⟩

/-! ## C9 — retention (`loop.py`, `verificar_retencao_exames`)

The local working set: study working directories under `OUTPUT_DICOM_DIR`,
progress JSONs under `PROGRESS_DIR` and cockpit metadata JSONs, each with a
name (the study's AN) and a modification time.  Deletion removes entries by
path, so surviving entries are the original ones whose name was not
removed. -/

structure FileEntry where
  name : String
  mtime : Nat
deriving DecidableEq, Repr

def byMtime (a b : FileEntry) : Prop := a.mtime ≤ b.mtime

instance : DecidableRel byMtime := fun a b => by
  unfold byMtime
  infer_instance

instance : IsTotal FileEntry byMtime :=
  ⟨fun a b => Nat.le_total a.mtime b.mtime⟩

instance : IsTrans FileEntry byMtime :=
  ⟨fun _ _ _ h1 h2 => Nat.le_trans h1 h2⟩

structure RetState where
  dirs : List FileEntry
  jsons : List FileEntry
  cockpit : List FileEntry
deriving DecidableEq, Repr

/-- `verificar_retencao_exames`: in `transient` mode trim the oldest progress
JSONs down to `limite`; in `persistent`/`pipeline` modes remove the oldest
working directories (with their matching progress JSONs) down to `limite`,
then sweep progress and cockpit JSONs whose directory no longer exists. -/
def verificarRetencaoExames (mode : StorageMode) (limite : Nat)
    (st : RetState) : RetState :=
  if mode = .transient then
    let jsonsSorted := List.insertionSort byMtime st.jsons
    let excesso : Int := (st.jsons.length : Int) - (limite : Int)
    if 0 < excesso then
      let removed := jsonsSorted.take excesso.toNat
      { st with
        jsons := st.jsons.filter (fun j => removed.all (fun r => r.name ≠ j.name)) }
    else st
  else
    let pastas := List.insertionSort byMtime st.dirs
    let excesso : Int := (st.dirs.length : Int) - (limite : Int)
    let removedDirs := if 0 < excesso then pastas.take excesso.toNat else []
    let dirs1 := st.dirs.filter (fun p => removedDirs.all (fun r => r.name ≠ p.name))
    let jsons1 := st.jsons.filter (fun j => removedDirs.all (fun r => r.name ≠ j.name))
    let jsons2 := jsons1.filter (fun j => dirs1.any (fun d => d.name = j.name))
    let cockpit2 := st.cockpit.filter (fun c => dirs1.any (fun d => d.name = c.name))
    { dirs := dirs1, jsons := jsons2, cockpit := cockpit2 }

/-- Core of the retention argument: trimming the first 3 entries of the
mtime-sorted order from a list of `K + 3` entries with pairwise-distinct
mtimes and distinct names keeps exactly `K` entries, and everything trimmed is
strictly older than everything kept. -/
lemma retention_core (l : List FileEntry) (K : Nat)
    (hlen : l.length = K + 3)
    (hmt : l.Pairwise (fun a b => a.mtime ≠ b.mtime))
    (hnm : (l.map (·.name)).Nodup) :
    ((List.insertionSort byMtime l).take 3).length = 3 ∧
    (∀ j ∈ l,
      (((List.insertionSort byMtime l).take 3).all
        (fun r => r.name ≠ j.name)) = false ↔
      j ∈ (List.insertionSort byMtime l).take 3) ∧
    (l.filter (fun j => ((List.insertionSort byMtime l).take 3).all
        (fun r => r.name ≠ j.name))).length = K ∧
    (∀ x ∈ l,
      x ∉ l.filter (fun j => ((List.insertionSort byMtime l).take 3).all
        (fun r => r.name ≠ j.name)) →
      x ∈ (List.insertionSort byMtime l).take 3 ∧
      ∀ y ∈ l.filter (fun j => ((List.insertionSort byMtime l).take 3).all
        (fun r => r.name ≠ j.name)), x.mtime < y.mtime) := by
  have hperm : List.Perm (List.insertionSort byMtime l) l :=
    List.perm_insertionSort byMtime l
  have hslen : (List.insertionSort byMtime l).length = K + 3 := by
    rw [hperm.length_eq, hlen]
  have hsort : (List.insertionSort byMtime l).Pairwise byMtime :=
    List.sorted_insertionSort byMtime l
  have hsne : (List.insertionSort byMtime l).Pairwise
      (fun a b => a.mtime ≠ b.mtime) :=
    (hperm.pairwise_iff (fun h => Ne.symm h)).mpr hmt
  have hlt : (List.insertionSort byMtime l).Pairwise
      (fun a b => a.mtime < b.mtime) :=
    (hsort.and hsne).imp (fun h => lt_of_le_of_ne h.1 h.2)
  have hnms : ((List.insertionSort byMtime l).map (·.name)).Nodup :=
    ((hperm.map (·.name)).nodup_iff).mpr hnm
  have hnmp : (List.insertionSort byMtime l).Pairwise
      (fun a b => a.name ≠ b.name) := by
    rw [List.Nodup, List.pairwise_map] at hnms
    exact hnms
  have hRlen : ((List.insertionSort byMtime l).take 3).length = 3 := by
    rw [List.length_take, hslen]
    omega
  -- split facts across take 3 / drop 3
  have hsplit_lt : ∀ x ∈ (List.insertionSort byMtime l).take 3,
      ∀ y ∈ (List.insertionSort byMtime l).drop 3, x.mtime < y.mtime := by
    have h' := hlt
    rw [← List.take_append_drop 3 (List.insertionSort byMtime l)] at h'
    exact fun x hx y hy => (List.pairwise_append.mp h').2.2 x hx y hy
  have hsplit_ne : ∀ x ∈ (List.insertionSort byMtime l).take 3,
      ∀ y ∈ (List.insertionSort byMtime l).drop 3, x.name ≠ y.name := by
    have h' := hnmp
    rw [← List.take_append_drop 3 (List.insertionSort byMtime l)] at h'
    exact fun x hx y hy => (List.pairwise_append.mp h').2.2 x hx y hy
  have hinj : ∀ a ∈ l, ∀ b ∈ l, a.name = b.name → a = b :=
    fun a ha b hb h => List.inj_on_of_nodup_map hnm ha hb h
  have hRsub : ∀ x ∈ (List.insertionSort byMtime l).take 3, x ∈ l :=
    fun x hx => hperm.subset (List.take_subset 3 _ hx)
  -- (a): membership in the removed prefix ↔ the name test fails
  have hkey : ∀ j ∈ l,
      (((List.insertionSort byMtime l).take 3).all
        (fun r => r.name ≠ j.name)) = false ↔
      j ∈ (List.insertionSort byMtime l).take 3 := by
    intro j hj
    constructor
    · intro hfail
      have : ¬ (∀ r ∈ (List.insertionSort byMtime l).take 3, r.name ≠ j.name) := by
        intro hall
        have : (((List.insertionSort byMtime l).take 3).all
            (fun r => r.name ≠ j.name)) = true := by
          rw [List.all_eq_true]
          intro r hr
          simpa using hall r hr
        rw [this] at hfail
        cases hfail
      push_neg at this
      obtain ⟨r, hr, hrn⟩ := this
      have : r = j := hinj r (hRsub r hr) j hj hrn
      exact this ▸ hr
    · intro hjR
      by_contra hne
      have hall : (((List.insertionSort byMtime l).take 3).all
          (fun r => r.name ≠ j.name)) = true := by
        revert hne
        cases ((List.insertionSort byMtime l).take 3).all
          (fun r => r.name ≠ j.name) <;> simp
      rw [List.all_eq_true] at hall
      have := hall j hjR
      simp at this
  -- counting
  have hkept_len : (l.filter (fun j => ((List.insertionSort byMtime l).take 3).all
      (fun r => r.name ≠ j.name))).length = K := by
    have hsum := List.length_eq_length_filter_add
      (l := l) (fun j => ((List.insertionSort byMtime l).take 3).all
        (fun r => r.name ≠ j.name))
    have hperm' := (hperm.filter
      (fun j => !((List.insertionSort byMtime l).take 3).all
        (fun r => r.name ≠ j.name))).symm
    have hcompl : (l.filter (fun j => !((List.insertionSort byMtime l).take 3).all
        (fun r => r.name ≠ j.name))).length = 3 := by
      rw [hperm'.length_eq]
      have hsplitf : (List.insertionSort byMtime l).filter
          (fun j => !((List.insertionSort byMtime l).take 3).all
            (fun r => r.name ≠ j.name)) =
          ((List.insertionSort byMtime l).take 3).filter
            (fun j => !((List.insertionSort byMtime l).take 3).all
              (fun r => r.name ≠ j.name)) ++
          ((List.insertionSort byMtime l).drop 3).filter
            (fun j => !((List.insertionSort byMtime l).take 3).all
              (fun r => r.name ≠ j.name)) := by
        rw [← List.filter_append, List.take_append_drop]
      rw [hsplitf]
      have h1 : ((List.insertionSort byMtime l).take 3).filter
          (fun j => !((List.insertionSort byMtime l).take 3).all
            (fun r => r.name ≠ j.name)) =
          (List.insertionSort byMtime l).take 3 := by
        rw [List.filter_eq_self]
        intro a ha
        have := (hkey a (hRsub a ha)).mpr ha
        rw [this]
        rfl
      have h2 : ((List.insertionSort byMtime l).drop 3).filter
          (fun j => !((List.insertionSort byMtime l).take 3).all
            (fun r => r.name ≠ j.name)) = [] := by
        rw [List.filter_eq_nil_iff]
        intro a ha
        have hal : a ∈ l := hperm.subset (List.drop_subset 3 _ ha)
        intro hcontra
        have hfalse : (((List.insertionSort byMtime l).take 3).all
            (fun r => r.name ≠ a.name)) = false := by
          revert hcontra
          cases ((List.insertionSort byMtime l).take 3).all
            (fun r => r.name ≠ a.name) <;> simp
        have haR := (hkey a hal).mp hfalse
        exact hsplit_ne a haR a ha rfl
      rw [h1, h2, List.append_nil, hRlen]
    omega
  refine ⟨hRlen, hkey, hkept_len, ?_⟩
  intro x hx hxk
  have hPx : (((List.insertionSort byMtime l).take 3).all
      (fun r => r.name ≠ x.name)) = false := by
    by_contra hne
    have hPx' : (((List.insertionSort byMtime l).take 3).all
        (fun r => r.name ≠ x.name)) = true := by
      revert hne
      cases ((List.insertionSort byMtime l).take 3).all
        (fun r => r.name ≠ x.name) <;> simp
    exact hxk (List.mem_filter.mpr ⟨hx, hPx'⟩)
  have hxR := (hkey x hx).mp hPx
  refine ⟨hxR, ?_⟩
  intro y hy
  have hy' := List.mem_filter.mp hy
  have hyS : y ∈ List.insertionSort byMtime l := hperm.mem_iff.mpr hy'.1
  rcases List.mem_append.mp
      ((List.take_append_drop 3 (List.insertionSort byMtime l)) ▸ hyS) with
    hyT | hyD
  · have := (hkey y hy'.1).mpr hyT
    rw [this] at hy'
    cases hy'.2
  · exact hsplit_lt x hxR y hyD

/-- C9.  With a limit of `K` and `K + 3` retained studies of pairwise-distinct
modification times (and distinct names), one retention pass removes exactly
the 3 oldest and keeps the `K` newest: in `transient` mode the trimmed
objects are the progress records (directories and cockpit files untouched);
in `persistent`/`pipeline` modes the working directories are trimmed the same
way and a progress record survives exactly when its directory does. -/
theorem nox_c9_retention_boundary (K : Nat) (st : RetState)
    (hjl : st.jsons.length = K + 3)
    (hjm : st.jsons.Pairwise (fun a b => a.mtime ≠ b.mtime))
    (hjn : (st.jsons.map (·.name)).Nodup)
    (hdl : st.dirs.length = K + 3)
    (hdm : st.dirs.Pairwise (fun a b => a.mtime ≠ b.mtime))
    (hdn : (st.dirs.map (·.name)).Nodup) :
    ((verificarRetencaoExames .transient K st).dirs = st.dirs ∧
      (verificarRetencaoExames .transient K st).cockpit = st.cockpit ∧
      (verificarRetencaoExames .transient K st).jsons.length = K ∧
      (∀ y ∈ (verificarRetencaoExames .transient K st).jsons, y ∈ st.jsons) ∧
      (∀ x ∈ st.jsons, x ∉ (verificarRetencaoExames .transient K st).jsons →
        ∀ y ∈ (verificarRetencaoExames .transient K st).jsons,
          x.mtime < y.mtime)) ∧
    (∀ mode, mode ≠ .transient →
      (verificarRetencaoExames mode K st).dirs.length = K ∧
      (∀ y ∈ (verificarRetencaoExames mode K st).dirs, y ∈ st.dirs) ∧
      (∀ x ∈ st.dirs, x ∉ (verificarRetencaoExames mode K st).dirs →
        ∀ y ∈ (verificarRetencaoExames mode K st).dirs, x.mtime < y.mtime) ∧
      (∀ j ∈ st.jsons, (j ∈ (verificarRetencaoExames mode K st).jsons ↔
        ∃ d ∈ (verificarRetencaoExames mode K st).dirs, d.name = j.name))) := by
  obtain ⟨hjR, hjkey, hjlen, hjrest⟩ := retention_core st.jsons K hjl hjm hjn
  obtain ⟨hdR, hdkey, hdlen, hdrest⟩ := retention_core st.dirs K hdl hdm hdn
  have hjpos : (0 : Int) < (st.jsons.length : Int) - (K : Int) := by
    rw [hjl]; push_cast; omega
  have hjtn : ((st.jsons.length : Int) - (K : Int)).toNat = 3 := by
    rw [hjl]; push_cast; omega
  have hdpos : (0 : Int) < (st.dirs.length : Int) - (K : Int) := by
    rw [hdl]; push_cast; omega
  have hdtn : ((st.dirs.length : Int) - (K : Int)).toNat = 3 := by
    rw [hdl]; push_cast; omega
  constructor
  · simp only [verificarRetencaoExames, if_pos rfl, if_pos hjpos, hjtn]
    refine ⟨rfl, rfl, hjlen, ?_, ?_⟩
    · intro y hy
      exact (List.mem_filter.mp hy).1
    · intro x hx hxk y hy
      exact (hjrest x hx hxk).2 y hy
  · intro mode hmo
    simp only [verificarRetencaoExames, if_neg hmo, if_pos hdpos, hdtn]
    have hinj : ∀ a ∈ st.dirs, ∀ b ∈ st.dirs, a.name = b.name → a = b :=
      fun a ha b hb h => List.inj_on_of_nodup_map hdn ha hb h
    have hRsub : ∀ x ∈ (List.insertionSort byMtime st.dirs).take 3,
        x ∈ st.dirs :=
      fun x hx => (List.perm_insertionSort byMtime st.dirs).subset
        (List.take_subset 3 _ hx)
    refine ⟨hdlen, ?_, ?_, ?_⟩
    · intro y hy
      exact (List.mem_filter.mp hy).1
    · intro x hx hxk y hy
      exact (hdrest x hx hxk).2 y hy
    · intro j hj
      constructor
      · intro hj2
        have hj2' := List.mem_filter.mp hj2
        obtain ⟨d, hd, hdj⟩ := List.any_eq_true.mp hj2'.2
        exact ⟨d, hd, by simpa using hdj⟩
      · rintro ⟨d, hd, hdj⟩
        have hd' := List.mem_filter.mp hd
        have hjall : (((List.insertionSort byMtime st.dirs).take 3).all
            (fun r => r.name ≠ j.name)) = true := by
          by_contra hne
          have hfail : (((List.insertionSort byMtime st.dirs).take 3).all
              (fun r => r.name ≠ j.name)) = false := by
            revert hne
            cases ((List.insertionSort byMtime st.dirs).take 3).all
              (fun r => r.name ≠ j.name) <;> simp
          rw [List.all_eq_false] at hfail
          obtain ⟨r, hr, hrj⟩ := hfail
          have hrj' : r.name = j.name := by simpa using hrj
          have hrd : r = d := hinj r (hRsub r hr) d hd'.1 (by rw [hrj', hdj])
          have hdfail := (hdkey d hd'.1).mpr (hrd ▸ hr)
          exact Bool.noConfusion (hd'.2.symm.trans hdfail)
        refine List.mem_filter.mpr ⟨List.mem_filter.mpr ⟨hj, hjall⟩, ?_⟩
        exact List.any_eq_true.mpr ⟨d, hd, by simpa using hdj⟩

/-- Witness for C9: limit 1, four studies with distinct modification times. -/
theorem nox_c9_retention_boundary_witness :
    ((⟨[⟨"a", 10⟩, ⟨"b", 20⟩, ⟨"c", 30⟩, ⟨"d", 40⟩],
        [⟨"a", 1⟩, ⟨"b", 2⟩, ⟨"c", 3⟩, ⟨"d", 4⟩],
        [⟨"a", 5⟩]⟩ : RetState).jsons.length = 1 + 3) ∧
    ((verificarRetencaoExames .transient 1
        (⟨[⟨"a", 10⟩, ⟨"b", 20⟩, ⟨"c", 30⟩, ⟨"d", 40⟩],
          [⟨"a", 1⟩, ⟨"b", 2⟩, ⟨"c", 3⟩, ⟨"d", 4⟩],
          [⟨"a", 5⟩]⟩ : RetState)).jsons = [⟨"d", 4⟩] ∧
      (verificarRetencaoExames .persistent 1
        (⟨[⟨"a", 10⟩, ⟨"b", 20⟩, ⟨"c", 30⟩, ⟨"d", 40⟩],
          [⟨"a", 1⟩, ⟨"b", 2⟩, ⟨"c", 3⟩, ⟨"d", 4⟩],
          [⟨"a", 5⟩]⟩ : RetState)).dirs = [⟨"d", 40⟩] ∧
      (verificarRetencaoExames .persistent 1
        (⟨[⟨"a", 10⟩, ⟨"b", 20⟩, ⟨"c", 30⟩, ⟨"d", 40⟩],
          [⟨"a", 1⟩, ⟨"b", 2⟩, ⟨"c", 3⟩, ⟨"d", 4⟩],
          [⟨"a", 5⟩]⟩ : RetState)).jsons = [⟨"d", 4⟩]) ∧
    (((verificarRetencaoExames .transient 1
        (⟨[⟨"a", 10⟩, ⟨"b", 20⟩, ⟨"c", 30⟩, ⟨"d", 40⟩],
          [⟨"a", 1⟩, ⟨"b", 2⟩, ⟨"c", 3⟩, ⟨"d", 4⟩],
          [⟨"a", 5⟩]⟩ : RetState)).jsons.length = 1) ∧
      ∀ mode, mode ≠ StorageMode.transient →
        (verificarRetencaoExames mode 1
          (⟨[⟨"a", 10⟩, ⟨"b", 20⟩, ⟨"c", 30⟩, ⟨"d", 40⟩],
            [⟨"a", 1⟩, ⟨"b", 2⟩, ⟨"c", 3⟩, ⟨"d", 4⟩],
            [⟨"a", 5⟩]⟩ : RetState)).dirs.length = 1) :=
  ⟨(by decide), (by decide),
    (nox_c9_retention_boundary 1
      (⟨[⟨"a", 10⟩, ⟨"b", 20⟩, ⟨"c", 30⟩, ⟨"d", 40⟩],
        [⟨"a", 1⟩, ⟨"b", 2⟩, ⟨"c", 3⟩, ⟨"d", 4⟩],
        [⟨"a", 5⟩]⟩ : RetState)
      (by decide) (by decide) (by decide) (by decide) (by decide)
      (by decide)).elim
      (fun htr hpe => ⟨htr.2.2.1, fun mode hmo => (hpe mode hmo).1⟩)⟩

/-! ## C6 — strict vs lenient pipeline dispatch
(`enviar_para_pipeline_api` / `processar_exame`, `pipeline.py`)

HTTP and file I/O are abstracted into a `DispatchEnv`; the `requests`
exchange becomes an `HttpResult` (`raise_for_status` raises exactly for
status 400–599).  The log written via `log_*` is captured as a list of
entries, and `pipeline_response.json` (written before `raise_for_status`)
as the optional `trace`. -/

def isAsciiSpace (c : Char) : Bool := c = ' ' ∨ c = '\t' ∨ c = '\n' ∨ c = '\r'

/-- `str.strip()` (ASCII whitespace, which covers the config values). -/
def strTrim (s : String) : String :=
  ⟨(s.data.dropWhile isAsciiSpace).reverse.dropWhile isAsciiSpace |>.reverse⟩

def upperChar (c : Char) : Char :=
  if 'a' ≤ c ∧ c ≤ 'z' then Char.ofNat (c.toNat - 32) else c

/-- `str.upper()` restricted to ASCII (the include/exclude terms and the
normalized exam name are ASCII after the diacritics strip). -/
def strUpper (s : String) : String := ⟨s.data.map upperChar⟩

def startsWithCL : List Char → List Char → Bool
  | [], _ => true
  | _ :: _, [] => false
  | a :: as, b :: bs => a = b && startsWithCL as bs

def hasSubCL (needle : List Char) : List Char → Bool
  | [] => needle.isEmpty
  | b :: bs => startsWithCL needle (b :: bs) || hasSubCL needle bs

/-- Python's `needle in hay` substring test. -/
def strContains (hay needle : String) : Bool := hasSubCL needle.data hay.data

structure PipelineConfig where
  enabled : Bool
  api_url : String
  token : String
  strict : Bool
  request_format : String
  include_terms : List String
  exclude_terms : List String
deriving DecidableEq, Repr

inductive HttpResult where
  /-- `requests.post` itself raised (connection error, timeout, …):
  no response, no trace file. -/
  | transportError
  /-- A response arrived with this status code and body. -/
  | response (status : Nat) (body : String)
deriving DecidableEq, Repr

inductive LogLevel where
  | info
  | ok
  | erro
  | skip
  | aviso
deriving DecidableEq, Repr

structure LogEntry where
  level : LogLevel
  msg : String
deriving DecidableEq, Repr

structure DispatchResult where
  ok : Bool
  hasResponse : Bool
  log : List LogEntry
  /-- `pipeline_response.json`: `(status_code, body)` when written. -/
  trace : Option (Nat × String)
deriving DecidableEq, Repr

structure DispatchEnv where
  /-- `metadata_cockpit.json` exists in the study directory. -/
  cockpitExists : Bool
  /-- Its parsed `exame` field (`none` = the JSON failed to parse). -/
  cockpitExame : Option String
  http : HttpResult
  /-- The `*.dcm` files found for the multipart formats (enriched; the
  representative is chosen by `selectPipelineDcm`). -/
  dicomFiles : List DicomFile
  /-- The age descriptor derived from the selected file (`""` = absent). -/
  ageValue : String
  /-- `multipart_optimized_image` only: the JPEG conversion succeeded. -/
  conversionOk : Bool
deriving DecidableEq, Repr

/-- `[t.strip().upper() for t in include_terms if str(t).strip()]`. -/
def includeTermsOf (cfg : PipelineConfig) : List String :=
  (cfg.include_terms.filter (fun t => strTrim t ≠ "")).map
    (fun t => strUpper (strTrim t))

def excludeTermsOf (cfg : PipelineConfig) : List String :=
  (cfg.exclude_terms.filter (fun t => strTrim t ≠ "")).map
    (fun t => strUpper (strTrim t))

/-- `include_terms and not all(term in exame_norm for term in include_terms)`. -/
def includeBlocked (cfg : PipelineConfig) (nm : String) : Bool :=
  !(includeTermsOf cfg).isEmpty &&
    !(includeTermsOf cfg).all (fun t => strContains nm t)

/-- `exclude_terms and any(term in exame_norm for term in exclude_terms)`. -/
def excludeBlocked (cfg : PipelineConfig) (nm : String) : Bool :=
  !(excludeTermsOf cfg).isEmpty &&
    (excludeTermsOf cfg).any (fun t => strContains nm t)

/-- The shared tail of every format branch: `requests.post`, write the trace,
then `resp.raise_for_status()` (which raises for status 400–599); any
exception yields `(not PIPELINE_STRICT, False)` with the failure logged. -/
def postFlow (strict : Bool) (http : HttpResult) : DispatchResult :=
  match http with
  | .transportError => ⟨!strict, false, [⟨.erro, "falha no envio"⟩], none⟩
  | .response st body =>
      if 400 ≤ st ∧ st < 600 then
        ⟨!strict, false, [⟨.erro, "falha no envio"⟩], some (st, body)⟩
      else ⟨true, true, [⟨.ok, "enviado para API"⟩], some (st, body)⟩

/-- `enviar_para_pipeline_api`.  `norm` is the exam-name normalization
(NFKD diacritics strip + upper-case), abstracted as a parameter. -/
def enviarParaPipelineApi (cfg : PipelineConfig) (norm : String → String)
    (an servidor : String) (js : ProgressJson) (env : DispatchEnv) :
    DispatchResult :=
  if !cfg.enabled then
    ⟨true, false, [⟨.info, "envio desativado em config"⟩], none⟩
  else if cfg.api_url = "" then
    ⟨true, false, [⟨.aviso, "api_url não configurada"⟩], none⟩
  else if !env.cockpitExists then
    ⟨true, false, [⟨.aviso, "metadata_cockpit.json ausente"⟩], none⟩
  else
    match env.cockpitExame with
    | none =>
        ⟨!cfg.strict, false, [⟨.erro, "falha lendo metadata_cockpit.json"⟩],
          none⟩
    | some exame =>
        let exameNorm := norm exame
        if includeBlocked cfg exameNorm then
          ⟨true, false, [⟨.skip, "fora do critério de inclusão"⟩], none⟩
        else if excludeBlocked cfg exameNorm then
          ⟨true, false, [⟨.skip, "bloqueado por exclusão"⟩], none⟩
        else if cfg.request_format = "multipart_single_file" then
          if env.dicomFiles = [] then
            ⟨!cfg.strict, false, [⟨.erro, "nenhum DICOM encontrado"⟩], none⟩
          else if env.ageValue = "" then
            ⟨true, false, [⟨.aviso, "PatientAge ausente"⟩], none⟩
          else postFlow cfg.strict env.http
        else if cfg.request_format = "multipart_optimized_image" then
          if env.dicomFiles = [] then
            ⟨!cfg.strict, false, [⟨.erro, "nenhum DICOM encontrado"⟩], none⟩
          else if !env.conversionOk then
            ⟨!cfg.strict, false, [⟨.erro, "falha na otimização"⟩], none⟩
          else postFlow cfg.strict env.http
        else postFlow cfg.strict env.http

/-- `pipeline_ativo_no_modo_atual()`. -/
def pipelineAtivoNoModoAtual (mode : StorageMode)
    (pipelineOnTransient : Bool) : Bool :=
  decide (mode = .pipeline) ||
    (decide (mode = .transient) && pipelineOnTransient)

/-- `processar_exame`: dispatch, then (when a response exists) write the
report (`gravar_laudo_do_pipeline`, a subprocess pair abstracted as
`laudoOk`).  Returns `(sucesso, novo_status)`.  The metadata-export side
effects do not influence the returned pair and are modelled elsewhere. -/
def processarExame (cfg : PipelineConfig) (norm : String → String)
    (mode : StorageMode) (pipelineOnTransient : Bool) (an servidor : String)
    (js : ProgressJson) (env : DispatchEnv) (laudoOk : Bool) : Bool × String :=
  let novoStatus := js.status
  if pipelineAtivoNoModoAtual mode pipelineOnTransient then
    let d := enviarParaPipelineApi cfg norm an servidor js env
    if !d.ok then (false, "pipeline_erro")
    else if d.hasResponse && !laudoOk then (false, "pipeline_laudo_erro")
    else (true, novoStatus)
  else (true, novoStatus)

/-- When the dispatch gate is passed (enabled, URL set, cockpit metadata
present and parsed, filter passed, format preconditions met), the result of
`enviar_para_pipeline_api` is exactly the post/trace/raise flow. -/
lemma enviar_eq_postFlow (cfg : PipelineConfig) (norm : String → String)
    (an servidor : String) (js : ProgressJson) (env : DispatchEnv)
    (exame : String)
    (h1 : cfg.enabled = true) (h2 : cfg.api_url ≠ "")
    (h3 : env.cockpitExists = true) (h4 : env.cockpitExame = some exame)
    (h5 : includeBlocked cfg (norm exame) = false)
    (h6 : excludeBlocked cfg (norm exame) = false)
    (h7 : cfg.request_format = "multipart_single_file" →
      env.dicomFiles ≠ [] ∧ env.ageValue ≠ "")
    (h8 : cfg.request_format = "multipart_optimized_image" →
      env.dicomFiles ≠ [] ∧ env.conversionOk = true) :
    enviarParaPipelineApi cfg norm an servidor js env =
      postFlow cfg.strict env.http := by
  unfold enviarParaPipelineApi
  rw [h1, h4]
  simp only [Bool.not_true, Bool.false_eq_true, if_false, if_neg h2]
  rw [h3]
  simp only [Bool.not_true, Bool.false_eq_true, if_false]
  rw [if_neg (by simp [h5]), if_neg (by simp [h6])]
  by_cases f1 : cfg.request_format = "multipart_single_file"
  · rw [if_pos f1, if_neg (h7 f1).1, if_neg (h7 f1).2]
  · rw [if_neg f1]
    by_cases f2 : cfg.request_format = "multipart_optimized_image"
    · rw [if_pos f2, if_neg (h8 f2).1]
      have := (h8 f2).2
      simp only [this, Bool.not_true, Bool.false_eq_true, if_false]
    · rw [if_neg f2]

/-- C6 counterexample.  The claim reads "non-2xx HTTP status ⇒ with
`strict=true` the study is reported as overall failure"; but
`raise_for_status` only raises for 4xx/5xx, so a 304 response — non-2xx —
is treated as success even under `strict=true`. -/
theorem nox_c6_counterexample :
    ¬ (304 / 100 = 2) ∧
    processarExame
      (⟨true, "http://api", "", true, "json", ["TORAX"], ["PERFIL"]⟩ :
        PipelineConfig)
      strUpper .pipeline false "1" "HAC"
      (⟨"1", "HAC", "u", 2, 2, "completo", ∅, "P", "D", "CR"⟩ : ProgressJson)
      (⟨true, some "TORAX AP", .response 304 "", [], "", true⟩ : DispatchEnv)
      true = (true, "completo") :=
  ⟨(by decide), (by decide)⟩

/-- C6 (amended).  For every pipeline dispatch attempt that fails at transport
level or with a 4xx/5xx HTTP status (the statuses `raise_for_status` treats
as failure): with `strict=false` the study is still an overall success and
the failure is logged as an error entry (and, for a 4xx/5xx response, the
exchange trace records the error status); with `strict=true` the study is an
overall failure with persisted status `"pipeline_erro"`. -/
theorem nox_c6_strict_lenient_dispatch (cfg : PipelineConfig)
    (norm : String → String) (an servidor : String) (js : ProgressJson)
    (env : DispatchEnv) (laudoOk : Bool) (exame : String)
    (h1 : cfg.enabled = true) (h2 : cfg.api_url ≠ "")
    (h3 : env.cockpitExists = true) (h4 : env.cockpitExame = some exame)
    (h5 : includeBlocked cfg (norm exame) = false)
    (h6 : excludeBlocked cfg (norm exame) = false)
    (h7 : cfg.request_format = "multipart_single_file" →
      env.dicomFiles ≠ [] ∧ env.ageValue ≠ "")
    (h8 : cfg.request_format = "multipart_optimized_image" →
      env.dicomFiles ≠ [] ∧ env.conversionOk = true)
    (hfail : env.http = .transportError ∨
      ∃ st body, env.http = .response st body ∧ 400 ≤ st ∧ st < 600) :
    (enviarParaPipelineApi cfg norm an servidor js env).ok = !cfg.strict ∧
    (enviarParaPipelineApi cfg norm an servidor js env).hasResponse = false ∧
    (∃ e ∈ (enviarParaPipelineApi cfg norm an servidor js env).log,
      e.level = .erro) ∧
    (∀ st body, env.http = .response st body →
      (enviarParaPipelineApi cfg norm an servidor js env).trace =
        some (st, body)) ∧
    (processarExame cfg norm .pipeline false an servidor js env laudoOk).1 =
      !cfg.strict ∧
    (cfg.strict = true →
      (processarExame cfg norm .pipeline false an servidor js env laudoOk).2 =
        "pipeline_erro") ∧
    (cfg.strict = false →
      (processarExame cfg norm .pipeline false an servidor js env laudoOk).2 =
        js.status) := by
  have henv := enviar_eq_postFlow cfg norm an servidor js env exame
    h1 h2 h3 h4 h5 h6 h7 h8
  have hpf : postFlow cfg.strict env.http =
      ⟨!cfg.strict, false, [⟨.erro, "falha no envio"⟩],
        match env.http with
        | .transportError => none
        | .response st body => some (st, body)⟩ := by
    rcases hfail with h | ⟨st, body, h, hlo, hhi⟩
    · rw [h]; rfl
    · rw [h]
      simp only [postFlow]
      rw [if_pos ⟨hlo, hhi⟩]
  have hproc : processarExame cfg norm .pipeline false an servidor js env
      laudoOk =
      if cfg.strict then (false, "pipeline_erro") else (true, js.status) := by
    unfold processarExame
    rw [if_pos (by rfl : pipelineAtivoNoModoAtual .pipeline false = true)]
    rw [henv, hpf]
    cases hs : cfg.strict
    · simp
    · simp
  refine ⟨?_, ?_, ?_, ?_, ?_, ?_, ?_⟩
  · rw [henv, hpf]
  · rw [henv, hpf]
  · rw [henv, hpf]
    exact ⟨⟨.erro, "falha no envio"⟩, List.mem_singleton.mpr rfl, rfl⟩
  · intro st body hresp
    rw [henv, hpf, hresp]
  · rw [hproc]
    cases cfg.strict <;> rfl
  · intro hs
    rw [hproc, if_pos hs]
  · intro hs
    rw [hproc, hs]
    rfl

/-- Witness for the amended C6: strict configuration, transport-level
failure. -/
theorem nox_c6_strict_lenient_dispatch_witness :
    includeBlocked
      (⟨true, "http://api", "", true, "json", ["TORAX"], ["PERFIL"]⟩ :
        PipelineConfig) (strUpper "TORAX AP") = false ∧
    (enviarParaPipelineApi
      (⟨true, "http://api", "", true, "json", ["TORAX"], ["PERFIL"]⟩ :
        PipelineConfig)
      strUpper "1" "HAC"
      (⟨"1", "HAC", "u", 2, 2, "completo", ∅, "P", "D", "CR"⟩ : ProgressJson)
      (⟨true, some "TORAX AP", .transportError, [], "", true⟩ :
        DispatchEnv)).ok = !true ∧
    (processarExame
      (⟨true, "http://api", "", true, "json", ["TORAX"], ["PERFIL"]⟩ :
        PipelineConfig)
      strUpper .pipeline false "1" "HAC"
      (⟨"1", "HAC", "u", 2, 2, "completo", ∅, "P", "D", "CR"⟩ : ProgressJson)
      (⟨true, some "TORAX AP", .transportError, [], "", true⟩ : DispatchEnv)
      true).1 = !true ∧
    ((true : Bool) = true →
      (processarExame
        (⟨true, "http://api", "", true, "json", ["TORAX"], ["PERFIL"]⟩ :
          PipelineConfig)
        strUpper .pipeline false "1" "HAC"
        (⟨"1", "HAC", "u", 2, 2, "completo", ∅, "P", "D", "CR"⟩ : ProgressJson)
        (⟨true, some "TORAX AP", .transportError, [], "", true⟩ : DispatchEnv)
        true).2 = "pipeline_erro") := by
  have h := nox_c6_strict_lenient_dispatch
    (⟨true, "http://api", "", true, "json", ["TORAX"], ["PERFIL"]⟩ :
      PipelineConfig)
    strUpper "1" "HAC"
    (⟨"1", "HAC", "u", 2, 2, "completo", ∅, "P", "D", "CR"⟩ : ProgressJson)
    (⟨true, some "TORAX AP", .transportError, [], "", true⟩ : DispatchEnv)
    true "TORAX AP" rfl (by decide) rfl rfl (by decide) (by decide)
    (fun hf => absurd hf (by decide)) (fun hf => absurd hf (by decide))
    (Or.inl rfl)
  exact ⟨(by decide), h.1, h.2.2.2.2.1, fun _ => h.2.2.2.2.2.1 rfl⟩
